import Mathlib

/-!
# op-enclave proposer driver

A shallow embedding of `op-proposer/proposer/driver.go`: the proposal builder
(`generateNextProposal`), the transaction submitter (`proposeOutput`,
`sendTransaction`, `proposeL2OutputTxData`), one iteration of the submission
loop (`loop`) and the lifecycle controller (`StartL2OutputSubmitting`,
`StopL2OutputSubmitting`, `StopL2OutputSubmittingIfRunning`), and of the hash-keyed
caching paths of `op-proposer/proposer/clients.go` (`ethClient.HeaderByHash`,
`HeaderByNumber`, `BlockByNumber`, `BlockByHash`, `BlockReceipts`).

External collaborators (oracle contract, L2 client, rollup client, prover,
ABI packer, transaction manager, metrics) are parameters; every call made to
them is recorded, in program order, in a list of `Call`s.  Go `uint64`
values are natural numbers, with the wrap-around of `+` and `-` written out.
-/

namespace Proposer

/-! ## Data model -/

/-- Number of values of a Go `uint64`, that is `2 ^ 64`. -/
def uint64Mod : Nat := 18446744073709551616

/-- Go `a - b` on `uint64` operands (wraps around below zero). -/
def u64sub (a b : Nat) : Nat := (a + uint64Mod - b) % uint64Mod

/-- Go `a + 1` on a `uint64` operand (wraps around at the maximum). -/
def u64succ (a : Nat) : Nat := (a + 1) % uint64Mod

/-- A 32-byte digest (`common.Hash`). -/
abbrev Bytes32 := Nat

/-- A byte string. -/
abbrev Bytes := List Nat

/-- An account address (`common.Address`). -/
abbrev Address := Nat

/-- The L1 origin of an L2 block (`eth.BlockID`). -/
structure BlockID where
  Hash : Bytes32
  Number : Nat
deriving DecidableEq, Repr

/-- An L2 block reference (`eth.L2BlockRef`), with the fields the driver reads. -/
structure L2BlockRef where
  Hash : Bytes32
  Number : Nat
  L1Origin : BlockID
deriving DecidableEq, Repr

/-- The `output` field of a proposal, with the fields the driver reads. -/
structure Output where
  OutputRoot : Bytes32
  Signature : Bytes
deriving DecidableEq, Repr

/-- The type `proposal` of the driver: its declaration is outside the source shown,
the fields are the ones `driver.go` reads (`proposal.output`, `proposal.blockRef`). -/
structure proposal where
  output : Output
  blockRef : L2BlockRef
deriving DecidableEq, Repr

/-- The oracle's answer (`bindings.TypesOutputProposal`): `L2BlockNumber` is a big integer. -/
structure TypesOutputProposal where
  OutputRoot : Bytes32
  L2BlockNumber : Nat
deriving DecidableEq, Repr

/-- A block header, reduced to what the driver reads: its hash. -/
structure Header where
  Hash : Bytes32
deriving DecidableEq, Repr

/-- The rollup node's sync status (`eth.SyncStatus`), with the two heads the driver reads. -/
structure SyncStatus where
  SafeL2 : L2BlockRef
  FinalizedL2 : L2BlockRef
deriving DecidableEq, Repr

/-- The fields of `ProposerConfig` that the driver reads in the modelled functions. -/
structure ProposerConfig where
  MinProposalInterval : Nat
  AllowNonFinalized : Bool
  L2OutputOracleAddr : Address
deriving DecidableEq, Repr

/-- Go `error` values of the driver.  `remote` is an error handed back by an external
collaborator; the `failed...` constructors are the `fmt.Errorf("...: %w", err)` wrappers of
`generateNextProposal`. -/
inductive Err where
  | remote (code : Nat)
  | ErrProposerNotRunning
  | alreadyRunning
  | failedLatestOutput (inner : Err)
  | failedHeader (number : Nat) (inner : Err)
  | failedSyncStatus (inner : Err)
  | failedGenerate (number : Nat) (inner : Err)
  | failedAggregate (inner : Err)
deriving DecidableEq, Repr

/-- Go `errors.Is(err, target)`: compare, then unwrap. -/
def errorsIs : Err → Err → Bool
  | .failedLatestOutput inner, target =>
    decide (Err.failedLatestOutput inner = target) || errorsIs inner target
  | .failedHeader n inner, target =>
    decide (Err.failedHeader n inner = target) || errorsIs inner target
  | .failedSyncStatus inner, target =>
    decide (Err.failedSyncStatus inner = target) || errorsIs inner target
  | .failedGenerate n inner, target =>
    decide (Err.failedGenerate n inner = target) || errorsIs inner target
  | .failedAggregate inner, target =>
    decide (Err.failedAggregate inner = target) || errorsIs inner target
  | e, target => decide (e = target)

/-- An argument handed to `abi.Pack`. -/
inductive AbiValue where
  | bytes32 (h : Bytes32)
  | bigInt (n : Nat)
  | bytes (b : Bytes)
deriving DecidableEq, Repr

/-- The transaction candidate handed to the transaction manager (`txmgr.TxCandidate`). -/
structure TxCandidate where
  TxData : Bytes
  To : Address
  GasLimit : Nat
deriving DecidableEq, Repr

/-- A mined receipt, with the fields the driver reads. -/
structure Receipt where
  Status : Nat
  TxHash : Bytes32
deriving DecidableEq, Repr

/-- The constant `types.ReceiptStatusFailed`. -/
def ReceiptStatusFailed : Nat := 0

/-- One call to an external collaborator, as it appears in a trace. -/
inductive Call where
  | LatestL2Output
  | HeaderByNumber (number : Nat)
  | SyncStatus
  | Generate (blockNumber : Nat)
  | Aggregate (prevOutputRoot : Bytes32) (proposals : List proposal)
  | Send (candidate : TxCandidate)
  | LogError (msg : String)
  | LogInfo (msg : String)
  | RecordL2BlocksProposed (ref : L2BlockRef)
deriving DecidableEq, Repr

/-- The remote services one round talks to: the output oracle, the L2 client, the rollup
client and the prover.  Each answers with a value or an error. -/
structure Env where
  LatestL2Output : Except Err TypesOutputProposal
  HeaderByNumber : Nat → Except Err Header
  SyncStatus : Except Err SyncStatus
  Generate : Nat → Except Err (proposal × Bool)
  Aggregate : Bytes32 → List proposal → Except Err proposal

/-- The ABI packer (`abi.Pack`) and the transaction manager (`Txmgr.Send`). -/
structure TxEnv where
  Pack : String → List AbiValue → Except Err Bytes
  Send : TxCandidate → Except Err Receipt

/-- What `generateNextProposal` returns, Go's `(*proposal, bool, error)`, together with the
calls it made. -/
structure RoundResult where
  proposal : Option proposal
  shouldPropose : Bool
  err : Option Err
  calls : List Call
deriving DecidableEq, Repr

/-! ## Proposal builder -/

/-- State of the `for` loop of `generateNextProposal` when it is left: the accumulated
`proposals`, the flag `shouldPropose`, the error of a failed `Generate` if any, and the calls. -/
structure LoopResult where
  proposals : List proposal
  shouldPropose : Bool
  err : Option Err
  calls : List Call
deriving DecidableEq, Repr

/-- The loop `for i := proposedBlockNumber + 1; i <= latestBlockNumber; i++` of
`generateNextProposal`, entered with loop variable `i`.  `fuel` bounds the number of
condition checks; `none` means the bound was reached before the loop was left. -/
def generateLoop (env : Env) : Nat → Nat → Nat → List proposal → Bool → Option LoopResult
  | 0, _, _, _, _ => none
  | fuel + 1, i, latestBlockNumber, proposals, shouldPropose =>
    if i ≤ latestBlockNumber then
      match env.Generate i with
      | .error err =>
        some ⟨proposals, shouldPropose, some (Err.failedGenerate i err), [Call.Generate i]⟩
      | .ok (p, anyWithdrawals) =>
        (generateLoop env fuel (u64succ i) latestBlockNumber (proposals ++ [p])
          (shouldPropose || anyWithdrawals)).map
          fun r => { r with calls := Call.Generate i :: r.calls }
    else
      some ⟨proposals, shouldPropose, none, []⟩

/-- The block "purge reorged blocks" of `generateNextProposal`: given the caller's
`lastProposal` and the on-chain `proposedBlockNumber`, the values of `lastProposal` and
`proposedBlockNumber` after the block (or the error it returns), and the calls made. -/
def purgeReorged (env : Env) (lastProposal : Option proposal) (proposedBlockNumber : Nat) :
    Except Err (Option proposal × Nat) × List Call :=
  match lastProposal with
  | none => (.ok (none, proposedBlockNumber), [])
  | some lp =>
    let lastProposalBlockRef := lp.blockRef
    match env.HeaderByNumber lastProposalBlockRef.Number with
    | .error err =>
      (.error (Err.failedHeader lastProposalBlockRef.Number err),
        [Call.HeaderByNumber lastProposalBlockRef.Number])
    | .ok proposedHeader =>
      if lastProposalBlockRef.Hash ≠ proposedHeader.Hash then
        (.ok (none, proposedBlockNumber), [Call.HeaderByNumber lastProposalBlockRef.Number])
      else
        (.ok (some lp, lastProposalBlockRef.Number),
          [Call.HeaderByNumber lastProposalBlockRef.Number])

/-- The frontier selected from the sync status: `FinalizedL2.Number`, or `SafeL2.Number`
when `AllowNonFinalized` is set. -/
def latestBlockNumber (cfg : ProposerConfig) (syncStatus : SyncStatus) : Nat :=
  if cfg.AllowNonFinalized then syncStatus.SafeL2.Number else syncStatus.FinalizedL2.Number

/-- The initial value of `shouldPropose`:
`MinProposalInterval > 0 && latestBlockNumber-proposedBlockNumber > MinProposalInterval`. -/
def countTrigger (cfg : ProposerConfig) (latest proposedBlockNumber : Nat) : Bool :=
  decide (cfg.MinProposalInterval > 0) &&
    decide (u64sub latest proposedBlockNumber > cfg.MinProposalInterval)

/-- The end of `generateNextProposal`, from the state in which the loop was left: return the
error of a failed `Generate`, or call `Aggregate` on the accumulated proposals. -/
def aggregateStep (env : Env) (proposed : TypesOutputProposal) (lr : LoopResult) : RoundResult :=
  match lr.err with
  | some err => ⟨none, false, some err, lr.calls⟩
  | none =>
    match env.Aggregate proposed.OutputRoot lr.proposals with
    | .error err =>
      ⟨none, false, some (Err.failedAggregate err),
        lr.calls ++ [Call.Aggregate proposed.OutputRoot lr.proposals]⟩
    | .ok agg =>
      ⟨some agg, lr.shouldPropose, none,
        lr.calls ++ [Call.Aggregate proposed.OutputRoot lr.proposals]⟩

/-- The part of `generateNextProposal` after the sync status is known: build the fragment
list, run the generation loop and aggregate. -/
def generateAndAggregate (env : Env) (cfg : ProposerConfig) (fuel : Nat)
    (proposed : TypesOutputProposal) (lastProposal : Option proposal)
    (proposedBlockNumber latest : Nat) : Option RoundResult :=
  let proposals : List proposal :=
    match lastProposal with
    | some lp => [lp]
    | none => []
  let shouldPropose := countTrigger cfg latest proposedBlockNumber
  (generateLoop env fuel (u64succ proposedBlockNumber) latest proposals shouldPropose).map
    (aggregateStep env proposed)

/-- One round of the proposal builder, `L2OutputSubmitter.generateNextProposal`.  The result
is `none` when `fuel` does not suffice for the generation loop to be left. -/
def generateNextProposal (env : Env) (cfg : ProposerConfig) (fuel : Nat)
    (lastProposal : Option proposal) : Option RoundResult :=
  match env.LatestL2Output with
  | .error err => some ⟨none, false, some (Err.failedLatestOutput err), [Call.LatestL2Output]⟩
  | .ok proposed =>
    let proposedBlockNumber := proposed.L2BlockNumber % uint64Mod
    match purgeReorged env lastProposal proposedBlockNumber with
    | (.error err, calls) => some ⟨none, false, some err, Call.LatestL2Output :: calls⟩
    | (.ok (lastProposal, proposedBlockNumber), calls) =>
      match env.SyncStatus with
      | .error err =>
        some ⟨none, false, some (Err.failedSyncStatus err),
          Call.LatestL2Output :: (calls ++ [Call.SyncStatus])⟩
      | .ok syncStatus =>
        (generateAndAggregate env cfg fuel proposed lastProposal proposedBlockNumber
          (latestBlockNumber cfg syncStatus)).map
          fun r => { r with calls := Call.LatestL2Output :: (calls ++ Call.SyncStatus :: r.calls) }

/-! ## Transaction submitter -/

/-- The ABI of the output oracle, reduced to its `Pack` method. -/
abbrev ABI := String → List AbiValue → Except Err Bytes

/-- The function `proposeL2OutputTxData`: the transaction data for `proposeL2Output`. -/
def proposeL2OutputTxData (abi : ABI) (p : proposal) : Except Err Bytes :=
  abi "proposeL2Output"
    [AbiValue.bytes32 p.output.OutputRoot,
     AbiValue.bigInt p.blockRef.Number,
     AbiValue.bigInt p.blockRef.L1Origin.Number,
     AbiValue.bytes p.output.Signature]

/-- The method `L2OutputSubmitter.sendTransaction`: the returned error (`none` is Go's `nil`)
and the calls made. -/
def sendTransaction (tx : TxEnv) (cfg : ProposerConfig) (p : proposal) :
    Option Err × List Call :=
  match proposeL2OutputTxData tx.Pack p with
  | .error err => (some err, [])
  | .ok data =>
    let candidate : TxCandidate := { TxData := data, To := cfg.L2OutputOracleAddr, GasLimit := 0 }
    match tx.Send candidate with
    | .error err => (some err, [Call.Send candidate])
    | .ok receipt =>
      if receipt.Status = ReceiptStatusFailed then
        (none, [Call.Send candidate,
          Call.LogError "Proposer tx successfully published but reverted"])
      else
        (none, [Call.Send candidate, Call.LogInfo "Proposer tx successfully published"])

/-- The method `L2OutputSubmitter.proposeOutput`: the calls made. -/
def proposeOutput (tx : TxEnv) (cfg : ProposerConfig) (p : proposal) : List Call :=
  match sendTransaction tx cfg p with
  | (some _, calls) => calls ++ [Call.LogError "Failed to send proposal transaction"]
  | (none, calls) => calls ++ [Call.RecordL2BlocksProposed p.blockRef]

/-! ## Submission loop -/

/-- Outcome of one firing of the ticker inside `L2OutputSubmitter.loop`. -/
inductive LoopStep where
  | returned
  | continued (lastProposal : Option proposal) (calls : List Call)
deriving DecidableEq, Repr

/-- The body of `case <-ticker.C` of `L2OutputSubmitter.loop`, for the current value of the
loop variable `lastProposal`; `doneClosed` tells whether `l.done` is closed.  The result is
`none` when `fuel` does not suffice for the round.  A round without error always carries a
proposal (`generateNextProposal` returns `Aggregate`'s result), so the last branch of the
`match` is never taken. -/
def loopTick (env : Env) (tx : TxEnv) (cfg : ProposerConfig) (fuel : Nat) (doneClosed : Bool)
    (lastProposal : Option proposal) : Option LoopStep :=
  if doneClosed then some LoopStep.returned
  else
    match generateNextProposal env cfg fuel lastProposal with
    | none => none
    | some r =>
      let lastProposal := r.proposal
      if r.err.isSome then some (LoopStep.continued lastProposal r.calls)
      else if !r.shouldPropose then some (LoopStep.continued lastProposal r.calls)
      else
        match r.proposal with
        | some p => some (LoopStep.continued lastProposal (r.calls ++ proposeOutput tx cfg p))
        | none => some (LoopStep.continued lastProposal r.calls)

/-! ## Lifecycle controller -/

/-- The lifecycle fields of `L2OutputSubmitter`: the flag `running`, whether the channel
`done` has been closed, and whether the context `ctx` has been cancelled. -/
structure L2OutputSubmitter where
  running : Bool
  doneClosed : Bool
  ctxCancelled : Bool
deriving DecidableEq, Repr

/-- What a lifecycle call does to the outside: spawning the loop, cancelling the context,
closing `done`, waiting for the loop. -/
inductive Effect where
  | goLoop
  | cancel
  | closeDone
  | wgWait
deriving DecidableEq, Repr

/-- How a lifecycle call ends: it returns an `error` (`none` is `nil`), or it panics. -/
inductive Outcome where
  | returns (err : Option Err)
  | panics
deriving DecidableEq, Repr

/-- The lifecycle fields as `newL2OOSubmitter` sets them. -/
def newL2OOSubmitter : L2OutputSubmitter :=
  { running := false, doneClosed := false, ctxCancelled := false }

/-- The method `StartL2OutputSubmitting`. -/
def StartL2OutputSubmitting (l : L2OutputSubmitter) :
    Outcome × L2OutputSubmitter × List Effect :=
  if l.running then
    (Outcome.returns (some Err.alreadyRunning), l, [])
  else
    (Outcome.returns none, { l with running := true }, [Effect.goLoop])

/-- The method `StopL2OutputSubmitting`.  Closing a channel that is already closed panics. -/
def StopL2OutputSubmitting (l : L2OutputSubmitter) :
    Outcome × L2OutputSubmitter × List Effect :=
  if !l.running then
    (Outcome.returns (some Err.ErrProposerNotRunning), l, [])
  else if l.doneClosed then
    (Outcome.panics, { l with running := false, ctxCancelled := true }, [Effect.cancel])
  else
    (Outcome.returns none, { running := false, doneClosed := true, ctxCancelled := true },
      [Effect.cancel, Effect.closeDone, Effect.wgWait])

/-- The method `StopL2OutputSubmittingIfRunning`. -/
def StopL2OutputSubmittingIfRunning (l : L2OutputSubmitter) :
    Outcome × L2OutputSubmitter × List Effect :=
  match StopL2OutputSubmitting l with
  | (Outcome.returns (some err), l1, effects) =>
    if errorsIs err Err.ErrProposerNotRunning then (Outcome.returns none, l1, effects)
    else (Outcome.returns (some err), l1, effects)
  | r => r

/-! ## Reading a trace -/

/-- The block numbers passed to `Generate`, in call order. -/
def generateCalls : List Call → List Nat
  | [] => []
  | Call.Generate n :: cs => n :: generateCalls cs
  | _ :: cs => generateCalls cs

/-- The arguments of the calls to `Aggregate`, in call order. -/
def aggregateCalls : List Call → List (Bytes32 × List proposal)
  | [] => []
  | Call.Aggregate root ps :: cs => (root, ps) :: aggregateCalls cs
  | _ :: cs => aggregateCalls cs

/-- The block references passed to `RecordL2BlocksProposed`, in call order. -/
def recordCalls : List Call → List L2BlockRef
  | [] => []
  | Call.RecordL2BlocksProposed ref :: cs => ref :: recordCalls cs
  | _ :: cs => recordCalls cs

/-- The candidates passed to the transaction manager's `Send`, in call order. -/
def sendCalls : List Call → List TxCandidate
  | [] => []
  | Call.Send c :: cs => c :: sendCalls cs
  | _ :: cs => sendCalls cs

/-! ## The generation loop over an explicit list of blocks -/

/-- Block `b` was generated successfully with fragment `p`. -/
def generated (env : Env) (b : Nat) (p : proposal) : Prop :=
  ∃ anyWithdrawals, env.Generate b = .ok (p, anyWithdrawals)

/-- The generation loop run over an explicit list of block numbers: `Generate` is
called for each block in turn until one fails. -/
def generateOver (env : Env) : List Nat → List proposal → Bool → LoopResult
  | [], proposals, shouldPropose => ⟨proposals, shouldPropose, none, []⟩
  | b :: bs, proposals, shouldPropose =>
    match env.Generate b with
    | .error err =>
      ⟨proposals, shouldPropose, some (Err.failedGenerate b err), [Call.Generate b]⟩
    | .ok (p, anyWithdrawals) =>
      let r := generateOver env bs (proposals ++ [p]) (shouldPropose || anyWithdrawals)
      { r with calls := Call.Generate b :: r.calls }

/-! ## Concrete scenarios -/

/-- Block reference number `n` of the scenarios: hash `1000 + n`. -/
def scenarioRef (n : Nat) : L2BlockRef :=
  { Hash := 1000 + n, Number := n, L1Origin := { Hash := 7, Number := 3 } }

/-- Fragment for block `n` of the scenarios. -/
def scenarioFragment (n : Nat) : proposal :=
  { output := { OutputRoot := 500 + n, Signature := [n] }, blockRef := scenarioRef n }

/-- The aggregate the scenario prover returns: it ends at the last fragment's block. -/
def scenarioAggregate (root : Bytes32) (ps : List proposal) : proposal :=
  { output := { OutputRoot := root + ps.length, Signature := [] },
    blockRef := (ps.getLast?.map fun q => q.blockRef).getD (scenarioRef 0) }

/-- A healthy environment: the oracle reports block `onchain` with root 42, the canonical
header of block `n` has hash `1000 + n`, both sync heads are at `frontier`, every block is
generated without pending withdrawals, aggregation succeeds. -/
def scenarioEnv (onchain frontier : Nat) : Env :=
  { LatestL2Output := .ok { OutputRoot := 42, L2BlockNumber := onchain }
    HeaderByNumber := fun n => .ok { Hash := 1000 + n }
    SyncStatus := .ok { SafeL2 := scenarioRef frontier, FinalizedL2 := scenarioRef frontier }
    Generate := fun n => .ok (scenarioFragment n, false)
    Aggregate := fun root ps => .ok (scenarioAggregate root ps) }

/-- The healthy environment with oracle at 100 and frontier at 107, except that the
generation of block 107 fails. -/
def scenarioFailingEnv : Env :=
  { scenarioEnv 100 107 with
    Generate := fun n => if n = 107 then .error (Err.remote 1) else .ok (scenarioFragment n, false) }

/-- The healthy environment with oracle at 100 and frontier at 107, after a reorg: the
canonical header of block `n` now has hash `2000 + n`. -/
def scenarioReorgEnv : Env :=
  { scenarioEnv 100 107 with HeaderByNumber := fun n => .ok { Hash := 2000 + n } }

/-- Scenario configuration with the given `MinProposalInterval`. -/
def scenarioCfg (interval : Nat) : ProposerConfig :=
  { MinProposalInterval := interval, AllowNonFinalized := false, L2OutputOracleAddr := 9 }

/-- A packer that writes the four arguments down, and a transaction manager whose receipt
has the given status. -/
def scenarioTx (status : Nat) : TxEnv :=
  { Pack := fun _ args => .ok (args.map fun a =>
      match a with
      | AbiValue.bytes32 h => h
      | AbiValue.bigInt n => n
      | AbiValue.bytes b => b.length)
    Send := fun _ => .ok { Status := status, TxHash := 77 } }

/-- A submitter that was started, stopped and started again. -/
def restartedSubmitter : L2OutputSubmitter :=
  (StartL2OutputSubmitting
    (StopL2OutputSubmitting (StartL2OutputSubmitting newL2OOSubmitter).2.1).2.1).2.1

/-! ## Caching client (`clients.go`) -/

/-- A block (`types.Block`), reduced to its header and a body. -/
structure Block where
  header : Header
  body : Bytes
deriving DecidableEq, Repr

/-- The method `Block.Hash()`: the hash of the block's header. -/
def Block.Hash (b : Block) : Bytes32 := b.header.Hash

/-- The receipts of a block (`types.Receipts`). -/
abbrev Receipts := List Receipt

/-- Modelled from the spec: the bounded least-recently-used cache `caching.LRUCache`, whose
code is outside the source shown ("bounded-size LRU mapping from an immutable content key to
fetched value; eviction is capacity-triggered LRU").  `entries` holds the cached pairs, the
most recently used first; at most `size` pairs are kept. -/
structure LRUCache (V : Type) where
  size : Nat
  entries : List (Bytes32 × V)
deriving DecidableEq, Repr

/-- Modelled from the spec: `caching.NewLRUCache`, an empty cache of the given size. -/
def NewLRUCache (V : Type) (size : Nat) : LRUCache V :=
  { size := size, entries := [] }

/-- Modelled from the spec: `LRUCache.Get`, the cached value under `key` if there is one; a
hit makes the pair the most recently used. -/
def LRUCache.Get {V : Type} (c : LRUCache V) (key : Bytes32) : Option V × LRUCache V :=
  match c.entries.lookup key with
  | some v =>
    (some v, { c with entries := (key, v) :: c.entries.filter fun kv => kv.1 != key })
  | none => (none, c)

/-- Modelled from the spec: `LRUCache.Add`, which stores `v` under `key` as the most recently
used pair, replacing an older pair under `key`, and evicts the least recently used pairs
beyond `size`. -/
def LRUCache.Add {V : Type} (c : LRUCache V) (key : Bytes32) (v : V) : LRUCache V :=
  { c with entries := ((key, v) :: c.entries.filter fun kv => kv.1 != key).take c.size }

/-- The remote source `e.client` of the caching client, with the five methods the cached
paths call. -/
structure EthRemote where
  HeaderByHash : Bytes32 → Except Err Header
  HeaderByNumber : Nat → Except Err Header
  BlockByNumber : Nat → Except Err Block
  BlockByHash : Bytes32 → Except Err Block
  BlockReceipts : Bytes32 → Except Err Receipts

/-- One call to the remote source. -/
inductive RemoteCall where
  | HeaderByHash (hash : Bytes32)
  | HeaderByNumber (number : Nat)
  | BlockByNumber (number : Nat)
  | BlockByHash (hash : Bytes32)
  | BlockReceipts (hash : Bytes32)
deriving DecidableEq, Repr

/-- The caches of `ethClient` that are keyed by block hash (`proofsCache`, used by `GetProof`
only, is left out). -/
structure ethClient where
  blocksCache : LRUCache Block
  headersCache : LRUCache Header
  receiptsCache : LRUCache Receipts
deriving DecidableEq, Repr

/-- The function `newClient`: empty caches of size 1000. -/
def newClient : ethClient :=
  let cacheSize := 1000
  { blocksCache := NewLRUCache Block cacheSize
    headersCache := NewLRUCache Header cacheSize
    receiptsCache := NewLRUCache Receipts cacheSize }

/-- The method `ethClient.HeaderByHash`: result, client afterwards, remote calls made. -/
def ethClient.HeaderByHash (remote : EthRemote) (e : ethClient) (hash : Bytes32) :
    Except Err Header × ethClient × List RemoteCall :=
  match e.headersCache.Get hash with
  | (some header, cache) => (.ok header, { e with headersCache := cache }, [])
  | (none, cache) =>
    match remote.HeaderByHash hash with
    | .error err =>
      (.error err, { e with headersCache := cache }, [RemoteCall.HeaderByHash hash])
    | .ok header =>
      (.ok header, { e with headersCache := cache.Add hash header },
        [RemoteCall.HeaderByHash hash])

/-- The method `ethClient.HeaderByNumber`. -/
def ethClient.HeaderByNumber (remote : EthRemote) (e : ethClient) (number : Nat) :
    Except Err Header × ethClient × List RemoteCall :=
  match remote.HeaderByNumber number with
  | .error err => (.error err, e, [RemoteCall.HeaderByNumber number])
  | .ok header =>
    (.ok header, { e with headersCache := e.headersCache.Add header.Hash header },
      [RemoteCall.HeaderByNumber number])

/-- The method `ethClient.BlockByNumber`. -/
def ethClient.BlockByNumber (remote : EthRemote) (e : ethClient) (number : Nat) :
    Except Err Block × ethClient × List RemoteCall :=
  match remote.BlockByNumber number with
  | .error err => (.error err, e, [RemoteCall.BlockByNumber number])
  | .ok block =>
    (.ok block,
      { e with
        blocksCache := e.blocksCache.Add block.Hash block
        headersCache := e.headersCache.Add block.Hash block.header },
      [RemoteCall.BlockByNumber number])

/-- The method `ethClient.BlockByHash`. -/
def ethClient.BlockByHash (remote : EthRemote) (e : ethClient) (hash : Bytes32) :
    Except Err Block × ethClient × List RemoteCall :=
  match e.blocksCache.Get hash with
  | (some block, cache) => (.ok block, { e with blocksCache := cache }, [])
  | (none, cache) =>
    match remote.BlockByHash hash with
    | .error err => (.error err, { e with blocksCache := cache }, [RemoteCall.BlockByHash hash])
    | .ok block =>
      (.ok block,
        { e with
          blocksCache := cache.Add block.Hash block
          headersCache := e.headersCache.Add block.Hash block.header },
        [RemoteCall.BlockByHash hash])

/-- The method `ethClient.BlockReceipts`. -/
def ethClient.BlockReceipts (remote : EthRemote) (e : ethClient) (hash : Bytes32) :
    Except Err Receipts × ethClient × List RemoteCall :=
  match e.receiptsCache.Get hash with
  | (some receipts, cache) => (.ok receipts, { e with receiptsCache := cache }, [])
  | (none, cache) =>
    match remote.BlockReceipts hash with
    | .error err =>
      (.error err, { e with receiptsCache := cache }, [RemoteCall.BlockReceipts hash])
    | .ok receipts =>
      (.ok receipts, { e with receiptsCache := cache.Add hash receipts },
        [RemoteCall.BlockReceipts hash])

/-- A remote source for the scenarios: block `n` has hash `1000 + n` and body `[n]`, and
the block with hash `h` is the one with number `h - 1000`. -/
def scenarioRemote : EthRemote :=
  { HeaderByHash := fun h => .ok { Hash := h }
    HeaderByNumber := fun n => .ok { Hash := 1000 + n }
    BlockByNumber := fun n => .ok { header := { Hash := 1000 + n }, body := [n] }
    BlockByHash := fun h => .ok { header := { Hash := h }, body := [h - 1000] }
    BlockReceipts := fun h => .ok [{ Status := 1, TxHash := h }] }

/-! ## Sequences of lifecycle calls -/

/-- One call of the lifecycle interface. -/
inductive LifecycleCall where
  | Start
  | Stop
  | StopIfRunning
deriving DecidableEq, Repr

/-- The method a lifecycle call stands for, applied to a submitter. -/
def LifecycleCall.apply : LifecycleCall → L2OutputSubmitter →
    Outcome × L2OutputSubmitter × List Effect
  | LifecycleCall.Start, l => StartL2OutputSubmitting l
  | LifecycleCall.Stop, l => StopL2OutputSubmitting l
  | LifecycleCall.StopIfRunning, l => StopL2OutputSubmittingIfRunning l

/-- A sequence of lifecycle calls made one after the other on a submitter: the outcomes and
the submitter afterwards.  A panic ends the sequence. -/
def runCalls : List LifecycleCall → L2OutputSubmitter → List Outcome × L2OutputSubmitter
  | [], l => ([], l)
  | c :: cs, l =>
    match c.apply l with
    | (Outcome.panics, l1, _) => ([Outcome.panics], l1)
    | (Outcome.returns err, l1, _) =>
      ((Outcome.returns err) :: (runCalls cs l1).1, (runCalls cs l1).2)

/-- The proposal a tick leaves in the loop variable `lastProposal` (`none` also when the
loop returned or the fuel did not suffice), and whether the tick called `Send`. -/
def tickOutcome (step : Option LoopStep) : Option proposal × Bool :=
  match step with
  | some (LoopStep.continued lastProposal calls) => (lastProposal, !(sendCalls calls).isEmpty)
  | _ => (none, false)

/-! ## Theorems -/

/-- Below the maximum, `i + 1` on `uint64` is the successor. -/
theorem u64succ_eq (i : Nat) (h : i + 1 < uint64Mod) : u64succ i = i + 1 := by
  unfold u64succ
  exact Nat.mod_eq_of_lt h

/-- With `b ≤ a`, `a - b` on `uint64` is the difference. -/
theorem u64sub_eq (a b : Nat) (hb : b ≤ a) (ha : a < uint64Mod) : u64sub a b = a - b := by
  unfold u64sub
  have h1 : a + uint64Mod - b = uint64Mod + (a - b) := by omega
  rw [h1, Nat.add_mod_left]
  exact Nat.mod_eq_of_lt (by omega)

/-- The `Generate` calls of a concatenated trace. -/
theorem generateCalls_append (xs ys : List Call) :
    generateCalls (xs ++ ys) = generateCalls xs ++ generateCalls ys := by
  induction xs with
  | nil => rfl
  | cons c cs ih => cases c <;> simp [generateCalls, ih]

/-- The `Aggregate` calls of a concatenated trace. -/
theorem aggregateCalls_append (xs ys : List Call) :
    aggregateCalls (xs ++ ys) = aggregateCalls xs ++ aggregateCalls ys := by
  induction xs with
  | nil => rfl
  | cons c cs ih => cases c <;> simp [aggregateCalls, ih]

/-- A trace of `Generate` calls reads back as its block numbers. -/
theorem generateCalls_map (bs : List Nat) : generateCalls (bs.map Call.Generate) = bs := by
  induction bs with
  | nil => rfl
  | cons b bs ih => simp [generateCalls, ih]

/-- A trace of `Generate` calls has no `Aggregate` call. -/
theorem aggregateCalls_map (bs : List Nat) : aggregateCalls (bs.map Call.Generate) = [] := by
  induction bs with
  | nil => rfl
  | cons b bs ih => simp [aggregateCalls, ih]

/-- Below the `uint64` maximum the loop of `generateNextProposal` is left after finitely many
steps, and it does what `generateOver` does on the blocks `i, i+1, ..., latest`. -/
theorem generateLoop_eq_generateOver (env : Env) (latest : Nat) (hl : latest + 1 < uint64Mod) :
    ∀ (fuel i : Nat) (proposals : List proposal) (shouldPropose : Bool),
      latest + 1 - i < fuel →
      generateLoop env fuel i latest proposals shouldPropose =
        some (generateOver env (List.range' i (latest + 1 - i)) proposals shouldPropose) := by
  intro fuel
  induction fuel with
  | zero => intro i _ _ h; omega
  | succ n ih =>
    intro i proposals shouldPropose hf
    by_cases hi : i ≤ latest
    · have hlen : latest + 1 - i = (latest + 1 - (i + 1)) + 1 := by omega
      have hs : u64succ i = i + 1 := u64succ_eq i (by omega)
      rw [hlen, List.range'_succ]
      simp only [generateLoop, generateOver, if_pos hi, hs]
      cases hG : env.Generate i with
      | error e => rfl
      | ok v =>
        obtain ⟨p, w⟩ := v
        simp only []
        rw [ih (i + 1) _ _ (by omega)]
        rfl
    · have hlen : latest + 1 - i = 0 := by omega
      rw [hlen]
      simp [generateLoop, generateOver, hi]

/-- When every block of the list is generated successfully, the loop accumulates the
fragments in order, calls `Generate` once per block and ORs the withdrawal flags. -/
theorem generateOver_all_ok (env : Env) :
    ∀ (bs : List Nat) (proposals : List proposal) (sp : Bool),
      (∀ b ∈ bs, ∃ q w, env.Generate b = .ok (q, w)) →
      ∃ frags, List.Forall₂ (generated env) bs frags ∧
        (generateOver env bs proposals sp).proposals = proposals ++ frags ∧
        (generateOver env bs proposals sp).err = none ∧
        (generateOver env bs proposals sp).calls = bs.map Call.Generate ∧
        ((generateOver env bs proposals sp).shouldPropose = true ↔
          sp = true ∨ ∃ b ∈ bs, ∃ q, env.Generate b = .ok (q, true)) := by
  intro bs
  induction bs with
  | nil =>
    intro proposals sp _
    exact ⟨[], List.Forall₂.nil, by simp [generateOver], rfl, rfl, by simp [generateOver]⟩
  | cons b bs ih =>
    intro proposals sp h
    obtain ⟨q, w, hq⟩ := h b (List.mem_cons_self b bs)
    obtain ⟨frags, hf, hp, he, hc, hs⟩ :=
      ih (proposals ++ [q]) (sp || w) (fun c hc => h c (List.mem_cons_of_mem b hc))
    refine ⟨q :: frags, List.Forall₂.cons ⟨w, hq⟩ hf, ?_, ?_, ?_, ?_⟩
    · simp only [generateOver, hq, hp, List.append_assoc, List.singleton_append]
    · simp only [generateOver, hq, he]
    · simp only [generateOver, hq, hc, List.map_cons]
    · simp only [generateOver, hq, hs, Bool.or_eq_true, List.mem_cons]
      constructor
      · rintro ((h1 | h1) | ⟨c, hc1, q1, hq1⟩)
        · exact Or.inl h1
        · exact Or.inr ⟨b, Or.inl rfl, q, by rw [hq, h1]⟩
        · exact Or.inr ⟨c, Or.inr hc1, q1, hq1⟩
      · rintro (h1 | ⟨c, (rfl | hc1), q1, hq1⟩)
        · exact Or.inl (Or.inl h1)
        · rw [hq] at hq1
          injection hq1 with hq2
          injection hq2 with _ hw
          exact Or.inl (Or.inr hw)
        · exact Or.inr ⟨c, hc1, q1, hq1⟩

/-- When block `k` is the first one whose generation fails, the loop stops there: the calls
are the blocks up to and including `k`, and the error is the one of block `k`. -/
theorem generateOver_first_failure (env : Env) (k : Nat) (e : Err) (post : List Nat)
    (hk : env.Generate k = .error e) :
    ∀ (pre : List Nat) (proposals : List proposal) (sp : Bool),
      (∀ b ∈ pre, ∃ q w, env.Generate b = .ok (q, w)) →
      (generateOver env (pre ++ k :: post) proposals sp).err = some (Err.failedGenerate k e) ∧
        (generateOver env (pre ++ k :: post) proposals sp).calls =
          (pre ++ [k]).map Call.Generate := by
  intro pre
  induction pre with
  | nil =>
    intro proposals sp _
    simp [generateOver, hk]
  | cons b bs ih =>
    intro proposals sp h
    obtain ⟨q, w, hq⟩ := h b (List.mem_cons_self b bs)
    obtain ⟨he, hc⟩ :=
      ih (proposals ++ [q]) (sp || w) (fun c hc => h c (List.mem_cons_of_mem b hc))
    have hcons : (b :: bs) ++ k :: post = b :: (bs ++ k :: post) := rfl
    rw [hcons]
    simp only [generateOver, hq, he, hc, List.cons_append, List.map_cons, and_self]

/-- The three ways the block "purge reorged blocks" can end without an error: there was no
previous proposal; the previous proposal was discarded because the canonical hash differs;
the previous proposal is kept and its block number replaces the on-chain one. -/
theorem purgeReorged_ok (env : Env) (lastProposal kept : Option proposal) (p0 p : Nat)
    (hc : List Call) (h : purgeReorged env lastProposal p0 = (.ok (kept, p), hc)) :
    (lastProposal = none ∧ kept = none ∧ p = p0 ∧ hc = []) ∨
    (∃ lp hd, lastProposal = some lp ∧ env.HeaderByNumber lp.blockRef.Number = .ok hd ∧
      lp.blockRef.Hash ≠ hd.Hash ∧ kept = none ∧ p = p0 ∧
      hc = [Call.HeaderByNumber lp.blockRef.Number]) ∨
    (∃ lp hd, lastProposal = some lp ∧ env.HeaderByNumber lp.blockRef.Number = .ok hd ∧
      lp.blockRef.Hash = hd.Hash ∧ kept = some lp ∧ p = lp.blockRef.Number ∧
      hc = [Call.HeaderByNumber lp.blockRef.Number]) := by
  cases lastProposal with
  | none =>
    simp only [purgeReorged, Prod.mk.injEq, Except.ok.injEq] at h
    obtain ⟨⟨h1, h2⟩, h3⟩ := h
    exact Or.inl ⟨rfl, h1.symm, h2.symm, h3.symm⟩
  | some lp =>
    right
    cases hH : env.HeaderByNumber lp.blockRef.Number with
    | error e => simp [purgeReorged, hH] at h
    | ok hd =>
      by_cases hne : lp.blockRef.Hash = hd.Hash
      · right
        simp only [purgeReorged, hH, hne, ne_eq, not_true_eq_false, if_false, Prod.mk.injEq,
          Except.ok.injEq] at h
        obtain ⟨⟨h1, h2⟩, h3⟩ := h
        exact ⟨lp, hd, rfl, hH, hne, h1.symm, h2.symm, h3.symm⟩
      · left
        simp only [purgeReorged, hH, hne, ne_eq, not_false_eq_true, if_true, Prod.mk.injEq,
          Except.ok.injEq] at h
        obtain ⟨⟨h1, h2⟩, h3⟩ := h
        exact ⟨lp, hd, rfl, hH, hne, h1.symm, h2.symm, h3.symm⟩

/-- A round whose oracle read, reorg check and sync status succeed is the generation loop
followed by the aggregation step. -/
theorem generateNextProposal_eq (env : Env) (cfg : ProposerConfig) (fuel : Nat)
    (lastProposal kept : Option proposal) (proposed : TypesOutputProposal) (p : Nat)
    (hc : List Call) (st : SyncStatus)
    (hO : env.LatestL2Output = .ok proposed)
    (hP : purgeReorged env lastProposal (proposed.L2BlockNumber % uint64Mod) = (.ok (kept, p), hc))
    (hS : env.SyncStatus = .ok st) :
    generateNextProposal env cfg fuel lastProposal =
      (generateAndAggregate env cfg fuel proposed kept p (latestBlockNumber cfg st)).map
        fun r => { r with calls := Call.LatestL2Output :: (hc ++ Call.SyncStatus :: r.calls) } := by
  simp only [generateNextProposal, hO, hP, hS]

/-- Below the `uint64` maximum, with enough fuel, the loop and aggregation part of a round
returns, and it is `generateOver` on the blocks `p+1, ..., latest` followed by aggregation. -/
theorem generateAndAggregate_eq (env : Env) (cfg : ProposerConfig) (fuel : Nat)
    (proposed : TypesOutputProposal) (kept : Option proposal) (p latest : Nat)
    (hp : p + 1 < uint64Mod) (hl : latest + 1 < uint64Mod) (hf : latest - p < fuel) :
    generateAndAggregate env cfg fuel proposed kept p latest =
      some (aggregateStep env proposed
        (generateOver env (List.range' (p + 1) (latest - p)) kept.toList
          (countTrigger cfg latest p))) := by
  have h1 : latest + 1 - (p + 1) = latest - p := by omega
  have h2 := generateLoop_eq_generateOver env latest hl fuel (p + 1)
    (match kept with | some lp => [lp] | none => []) (countTrigger cfg latest p) (by omega)
  rw [h1] at h2
  cases kept <;> simp only [generateAndAggregate, u64succ_eq p hp, h2, Option.map_some', Option.toList]

/-- The generation loop always calls `Generate` on an initial segment of its block list. -/
theorem generateOver_calls (env : Env) :
    ∀ (bs : List Nat) (proposals : List proposal) (sp : Bool),
      ∃ n, n ≤ bs.length ∧
        (generateOver env bs proposals sp).calls = (bs.take n).map Call.Generate := by
  intro bs
  induction bs with
  | nil => intro _ _; exact ⟨0, Nat.le_refl _, rfl⟩
  | cons b bs ih =>
    intro proposals sp
    cases hq : env.Generate b with
    | error e => exact ⟨1, by simp, by simp [generateOver, hq]⟩
    | ok v =>
      obtain ⟨q, w⟩ := v
      obtain ⟨n, hn, hc⟩ := ih (proposals ++ [q]) (sp || w)
      exact ⟨n + 1, by simpa using hn, by simp [generateOver, hq, hc]⟩

/-- When the generation loop is left without an error, every block of the list was
generated successfully. -/
theorem generateOver_err_none (env : Env) :
    ∀ (bs : List Nat) (proposals : List proposal) (sp : Bool),
      (generateOver env bs proposals sp).err = none →
      ∀ b ∈ bs, ∃ q w, env.Generate b = .ok (q, w) := by
  intro bs
  induction bs with
  | nil => intro _ _ _ b hb; cases hb
  | cons c bs ih =>
    intro proposals sp h b hb
    cases hq : env.Generate c with
    | error e => simp [generateOver, hq] at h
    | ok v =>
      obtain ⟨q, w⟩ := v
      simp only [generateOver, hq] at h
      rcases List.mem_cons.mp hb with rfl | hb1
      · exact ⟨q, w, hq⟩
      · exact ih _ _ h b hb1

/-- A round that fails returns Go's `nil, false, err`. -/
theorem aggregateStep_err (env : Env) (proposed : TypesOutputProposal) (lr : LoopResult)
    (h : (aggregateStep env proposed lr).err ≠ none) :
    (aggregateStep env proposed lr).proposal = none ∧
      (aggregateStep env proposed lr).shouldPropose = false := by
  unfold aggregateStep at h ⊢
  cases he : lr.err with
  | some e => simp
  | none =>
    cases hA : env.Aggregate proposed.OutputRoot lr.proposals with
    | error e => simp
    | ok agg => simp [he, hA] at h

/-- A round that returns an error returns no proposal and a false submit flag. -/
theorem generateNextProposal_err (env : Env) (cfg : ProposerConfig) (fuel : Nat)
    (lastProposal : Option proposal) (r : RoundResult)
    (hr : generateNextProposal env cfg fuel lastProposal = some r) (he : r.err ≠ none) :
    r.proposal = none ∧ r.shouldPropose = false := by
  unfold generateNextProposal at hr
  cases hO : env.LatestL2Output with
  | error e =>
    simp only [hO, Option.some.injEq] at hr
    subst hr
    exact ⟨rfl, rfl⟩
  | ok proposed =>
    simp only [hO] at hr
    rcases hP : purgeReorged env lastProposal (proposed.L2BlockNumber % uint64Mod) with ⟨x, hc⟩
    cases x with
    | error e =>
      simp only [hP, Option.some.injEq] at hr
      subst hr
      exact ⟨rfl, rfl⟩
    | ok v =>
      obtain ⟨kept, p⟩ := v
      simp only [hP] at hr
      cases hS : env.SyncStatus with
      | error e =>
        simp only [hS, Option.some.injEq] at hr
        subst hr
        exact ⟨rfl, rfl⟩
      | ok st =>
        simp only [hS, generateAndAggregate, Option.map_map, Option.map_eq_some'] at hr
        obtain ⟨lr, _, hlr⟩ := hr
        subst hlr
        exact aggregateStep_err env proposed lr he

/-- The count trigger, when the frontier is not behind `p`: the interval is enabled and
exceeded by the number of new blocks. -/
theorem countTrigger_of_le (cfg : ProposerConfig) (f p : Nat) (hpf : p ≤ f) (hf : f < uint64Mod) :
    (countTrigger cfg f p = true ↔
      0 < cfg.MinProposalInterval ∧ f - p > cfg.MinProposalInterval) := by
  simp [countTrigger, u64sub_eq f p hpf hf]

/-- A round in which the oracle read, the reorg check, the sync status and every `Generate`
succeed, below the `uint64` maximum and with enough fuel: it returns, and its calls, the
arguments of `Aggregate` and its result are as follows. -/
theorem round_all_ok (env : Env) (cfg : ProposerConfig) (fuel : Nat)
    (lastProposal kept : Option proposal) (proposed : TypesOutputProposal) (p f : Nat)
    (hc : List Call) (st : SyncStatus)
    (hO : env.LatestL2Output = .ok proposed)
    (hP : purgeReorged env lastProposal (proposed.L2BlockNumber % uint64Mod) = (.ok (kept, p), hc))
    (hS : env.SyncStatus = .ok st) (hfr : latestBlockNumber cfg st = f)
    (hp : p + 1 < uint64Mod) (hl : f + 1 < uint64Mod) (hf : f - p < fuel)
    (hG : ∀ b, p < b → b ≤ f → ∃ q w, env.Generate b = .ok (q, w)) :
    ∃ frags r, List.Forall₂ (generated env) (List.range' (p + 1) (f - p)) frags ∧
      generateNextProposal env cfg fuel lastProposal = some r ∧
      r.calls = Call.LatestL2Output :: (hc ++ Call.SyncStatus ::
        ((List.range' (p + 1) (f - p)).map Call.Generate ++
          [Call.Aggregate proposed.OutputRoot (kept.toList ++ frags)])) ∧
      (∀ agg, env.Aggregate proposed.OutputRoot (kept.toList ++ frags) = .ok agg →
        r.proposal = some agg ∧ r.err = none ∧
        (r.shouldPropose = true ↔ countTrigger cfg f p = true ∨
          ∃ b, p < b ∧ b ≤ f ∧ ∃ q, env.Generate b = .ok (q, true))) ∧
      (∀ e, env.Aggregate proposed.OutputRoot (kept.toList ++ frags) = .error e →
        r.proposal = none ∧ r.shouldPropose = false ∧ r.err = some (Err.failedAggregate e)) := by
  have hG1 : ∀ b ∈ List.range' (p + 1) (f - p), ∃ q w, env.Generate b = .ok (q, w) := by
    intro b hb
    rw [List.mem_range'_1] at hb
    exact hG b (by omega) (by omega)
  obtain ⟨frags, hfr2, hprop, herr, hcalls, hsp⟩ :=
    generateOver_all_ok env (List.range' (p + 1) (f - p)) kept.toList (countTrigger cfg f p) hG1
  have hround := generateNextProposal_eq env cfg fuel lastProposal kept proposed p hc st hO hP hS
  rw [hfr, generateAndAggregate_eq env cfg fuel proposed kept p f hp hl hf] at hround
  refine ⟨frags, _, hfr2, hround, ?_, ?_, ?_⟩
  · simp only [aggregateStep, herr, hprop, hcalls]
    cases env.Aggregate proposed.OutputRoot (kept.toList ++ frags) <;> rfl
  · intro agg hA
    simp only [aggregateStep, herr, hprop, hA, hsp, true_and]
    constructor
    · rintro (h1 | ⟨b, hb, q, hq⟩)
      · exact Or.inl h1
      · rw [List.mem_range'_1] at hb
        exact Or.inr ⟨b, by omega, by omega, q, hq⟩
    · rintro (h1 | ⟨b, hb1, hb2, q, hq⟩)
      · exact Or.inl h1
      · exact Or.inr ⟨b, by rw [List.mem_range'_1]; omega, q, hq⟩
  · intro e hA
    simp only [aggregateStep, herr, hprop, hA, and_self]

/-- The reorg check calls neither `Generate` nor `Aggregate`. -/
theorem purgeReorged_calls (env : Env) (lastProposal : Option proposal) (p0 : Nat) :
    generateCalls (purgeReorged env lastProposal p0).2 = [] ∧
      aggregateCalls (purgeReorged env lastProposal p0).2 = [] := by
  cases lastProposal with
  | none => exact ⟨rfl, rfl⟩
  | some lp =>
    simp only [purgeReorged]
    cases env.HeaderByNumber lp.blockRef.Number with
    | error e => exact ⟨rfl, rfl⟩
    | ok hd => by_cases h : lp.blockRef.Hash = hd.Hash <;> simp [h, generateCalls, aggregateCalls]

/-- The `Generate` calls of a round's trace: those of its generation loop. -/
theorem generateCalls_round (hc tail : List Call) (bs : List Nat) (h : generateCalls hc = []) :
    generateCalls (Call.LatestL2Output :: (hc ++ Call.SyncStatus ::
      (bs.map Call.Generate ++ tail))) = bs ++ generateCalls tail := by
  simp [generateCalls, generateCalls_append, generateCalls_map, h]

/-- The `Aggregate` calls of a round's trace: those after its generation loop. -/
theorem aggregateCalls_round (hc tail : List Call) (bs : List Nat) (h : aggregateCalls hc = []) :
    aggregateCalls (Call.LatestL2Output :: (hc ++ Call.SyncStatus ::
      (bs.map Call.Generate ++ tail))) = aggregateCalls tail := by
  simp [aggregateCalls, aggregateCalls_append, aggregateCalls_map, h]

/-- A round in which the oracle read, the reorg check and the sync status succeed and block
`k` is the first whose generation fails: it returns `nil, false, err` after generating the
blocks `p+1, ..., k`, without calling `Aggregate`. -/
theorem round_first_failure (env : Env) (cfg : ProposerConfig) (fuel : Nat)
    (lastProposal kept : Option proposal) (proposed : TypesOutputProposal) (p f : Nat)
    (hc : List Call) (st : SyncStatus)
    (hO : env.LatestL2Output = .ok proposed)
    (hP : purgeReorged env lastProposal (proposed.L2BlockNumber % uint64Mod) = (.ok (kept, p), hc))
    (hS : env.SyncStatus = .ok st) (hfr : latestBlockNumber cfg st = f)
    (hp : p + 1 < uint64Mod) (hl : f + 1 < uint64Mod) (hf : f - p < fuel)
    (k : Nat) (e : Err) (hk1 : p < k) (hk2 : k ≤ f) (hk : env.Generate k = .error e)
    (hpre : ∀ b, p < b → b < k → ∃ q w, env.Generate b = .ok (q, w)) :
    generateNextProposal env cfg fuel lastProposal =
      some ⟨none, false, some (Err.failedGenerate k e),
        Call.LatestL2Output :: (hc ++ Call.SyncStatus ::
          ((List.range' (p + 1) (k - p)).map Call.Generate ++ []))⟩ := by
  have hsplit : List.range' (p + 1) (f - p) =
      List.range' (p + 1) (k - p - 1) ++ k :: List.range' (k + 1) (f - k) := by
    have h1 : f - p = ((f - k) + 1) + (k - p - 1) := by omega
    have h2 : p + 1 + (k - p - 1) = k := by omega
    rw [h1, ← List.range'_append_1 (p + 1) (k - p - 1) (f - k + 1), h2, List.range'_succ]
  have hlast : List.range' (p + 1) (k - p) = List.range' (p + 1) (k - p - 1) ++ [k] := by
    have h1 : k - p = (k - p - 1) + 1 := by omega
    have h2 : p + 1 + 1 * (k - p - 1) = k := by omega
    rw [h1, List.range'_concat, h2]
    simp
  have hpre1 : ∀ b ∈ List.range' (p + 1) (k - p - 1), ∃ q w, env.Generate b = .ok (q, w) := by
    intro b hb
    rw [List.mem_range'_1] at hb
    exact hpre b (by omega) (by omega)
  obtain ⟨herr, hcalls⟩ := generateOver_first_failure env k e (List.range' (k + 1) (f - k)) hk
    (List.range' (p + 1) (k - p - 1)) kept.toList (countTrigger cfg f p) hpre1
  have hround := generateNextProposal_eq env cfg fuel lastProposal kept proposed p hc st hO hP hS
  rw [hfr, generateAndAggregate_eq env cfg fuel proposed kept p f hp hl hf, hsplit] at hround
  rw [hround, hlast]
  simp only [Option.map_some', aggregateStep, herr, hcalls, List.append_nil]

/-- Either every block of `p+1, ..., f` is generated successfully, or there is a first block
whose generation fails. -/
theorem all_ok_or_first_failure (env : Env) (p f : Nat) :
    (∀ b, p < b → b ≤ f → ∃ q w, env.Generate b = .ok (q, w)) ∨
    (∃ k e, p < k ∧ k ≤ f ∧ env.Generate k = .error e ∧
      ∀ b, p < b → b < k → ∃ q w, env.Generate b = .ok (q, w)) := by
  classical
  by_cases hall : ∀ b, p < b → b ≤ f → ∃ q w, env.Generate b = .ok (q, w)
  · exact Or.inl hall
  · right
    have hex : ∃ k, p < k ∧ k ≤ f ∧ ¬ ∃ q w, env.Generate k = .ok (q, w) := by
      by_contra hcon
      apply hall
      intro b hb1 hb2
      by_contra hb3
      exact hcon ⟨b, hb1, hb2, hb3⟩
    obtain ⟨h1, h2, h3⟩ := Nat.find_spec hex
    have hmin : ∀ b, p < b → b < Nat.find hex → ∃ q w, env.Generate b = .ok (q, w) := by
      intro b hb1 hb2
      by_contra hb3
      exact Nat.find_min hex hb2 ⟨hb1, by omega, hb3⟩
    cases hG : env.Generate (Nat.find hex) with
    | error e => exact ⟨Nat.find hex, e, h1, h2, hG, hmin⟩
    | ok v => exact absurd ⟨v.1, v.2, hG⟩ h3

/-- The count trigger, when the frontier is behind `p`: the subtraction wraps around, and
the trigger fires for every enabled interval below `2^64 - (p - f)`. -/
theorem countTrigger_of_lt (cfg : ProposerConfig) (f p : Nat) (hfp : f < p) (hp : p < uint64Mod) :
    (countTrigger cfg f p = true ↔
      0 < cfg.MinProposalInterval ∧ cfg.MinProposalInterval < uint64Mod - (p - f)) := by
  have h1 : u64sub f p = uint64Mod - (p - f) := by
    unfold u64sub
    have h2 : f + uint64Mod - p = uint64Mod - (p - f) := by omega
    rw [h2]
    exact Nat.mod_eq_of_lt (by omega)
  simp [countTrigger, h1]

/-- A round with the frontier at or behind the effective `proposedBlockNumber` `p`, in which
the oracle read, the reorg check and the sync status succeed: `Generate` is not called,
`Aggregate` is called once on the carried-forward proposal alone, and when aggregation
succeeds the submit flag is the count trigger. -/
theorem round_frontier_le (env : Env) (cfg : ProposerConfig) (fuel : Nat)
    (lastProposal kept : Option proposal) (proposed : TypesOutputProposal) (p f : Nat)
    (hc : List Call) (st : SyncStatus)
    (hO : env.LatestL2Output = .ok proposed)
    (hP : purgeReorged env lastProposal (proposed.L2BlockNumber % uint64Mod) = (.ok (kept, p), hc))
    (hS : env.SyncStatus = .ok st) (hfr : latestBlockNumber cfg st = f)
    (hp : p + 1 < uint64Mod) (hle : f ≤ p) (hfuel : 0 < fuel) :
    ∃ r, generateNextProposal env cfg fuel lastProposal = some r ∧
      generateCalls r.calls = [] ∧
      aggregateCalls r.calls = [(proposed.OutputRoot, kept.toList)] ∧
      (r.err = none → r.shouldPropose = countTrigger cfg f p) := by
  obtain ⟨frags, r, hfrags, hr, hcalls, hok, herr⟩ :=
    round_all_ok env cfg fuel lastProposal kept proposed p f hc st hO hP hS hfr hp (by omega)
      (by omega) (fun b h1 h2 => absurd h2 (by omega))
  have h0 : f - p = 0 := by omega
  rw [h0] at hfrags hcalls
  simp only [List.range'_zero] at hfrags
  cases hfrags
  have hpc := purgeReorged_calls env lastProposal (proposed.L2BlockNumber % uint64Mod)
  rw [hP] at hpc
  refine ⟨r, hr, ?_, ?_, ?_⟩
  · rw [hcalls, List.range'_zero, generateCalls_round hc _ [] hpc.1]
    rfl
  · rw [hcalls, List.range'_zero, aggregateCalls_round hc _ [] hpc.2]
    simp [aggregateCalls]
  · intro he
    cases hA : env.Aggregate proposed.OutputRoot (kept.toList ++ []) with
    | error e => rw [(herr e hA).2.2] at he; cases he
    | ok agg =>
      obtain ⟨_, _, hsp⟩ := hok agg hA
      cases hct : countTrigger cfg f p with
      | true => exact hsp.mpr (Or.inl hct)
      | false =>
        cases hs : r.shouldPropose with
        | false => rfl
        | true =>
          rcases hsp.mp hs with h1 | ⟨b, hb1, hb2, _⟩
          · rw [hct] at h1; cases h1
          · omega

/-- C1 (the code at the failing input): the oracle is at block 100, the frontier at 99,
`MinProposalInterval` is 1 and there is no previous proposal.  `Generate` is not called and
`Aggregate` is called once with no fragment, but `99 - 100` wraps around to `2^64 - 1 > 1`
and the round returns the submit flag `true`. -/
theorem generateNextProposal_frontier_behind_submits :
    (generateNextProposal (scenarioEnv 100 99) (scenarioCfg 1) 1 none).map
      (fun r => (generateCalls r.calls, aggregateCalls r.calls, r.shouldPropose, r.err)) =
      some ([], [(42, [])], true, none) := by
  decide

/-- C2 (counterexample): the loop holds the proposal for block 105, whose hash is still
canonical; in the round the generation of block 107 fails.  The round returns an error, and
after the tick the loop variable `lastProposal` is `nil`, not the proposal it held. -/
theorem loopTick_failed_round_drops_lastProposal :
    (generateNextProposal scenarioFailingEnv (scenarioCfg 2) 10
        (some (scenarioFragment 105))).map (fun r => r.err) =
      some (some (Err.failedGenerate 107 (Err.remote 1))) ∧
    loopTick scenarioFailingEnv (scenarioTx 1) (scenarioCfg 2) 10 false
        (some (scenarioFragment 105)) =
      some (LoopStep.continued none
        [Call.LatestL2Output, Call.HeaderByNumber 105, Call.SyncStatus,
          Call.Generate 106, Call.Generate 107]) ∧
    (none : Option proposal) ≠ some (scenarioFragment 105) := by
  decide

/-- C2 (amended): in every tick in which `generateNextProposal` returns an error, the loop
assigns the returned `nil` to `lastProposal` before it looks at the error: after the tick
the loop carries no proposal forward, whatever it held before, and nothing is submitted. -/
theorem loopTick_error_clears_lastProposal (env : Env) (tx : TxEnv) (cfg : ProposerConfig)
    (fuel : Nat) (lastProposal : Option proposal) (r : RoundResult)
    (hr : generateNextProposal env cfg fuel lastProposal = some r) (he : r.err ≠ none) :
    loopTick env tx cfg fuel false lastProposal = some (LoopStep.continued none r.calls) := by
  have hnil := (generateNextProposal_err env cfg fuel lastProposal r hr he).1
  have hsome : r.err.isSome = true := by
    cases h : r.err with
    | none => exact absurd h he
    | some e => rfl
  simp [loopTick, hr, hsome, hnil]

/-- The amended C2 at the failing round of `scenarioFailingEnv`. -/
theorem loopTick_error_clears_lastProposal_witness :
    generateNextProposal scenarioFailingEnv (scenarioCfg 2) 10 (some (scenarioFragment 105)) =
      some ⟨none, false, some (Err.failedGenerate 107 (Err.remote 1)),
        [Call.LatestL2Output, Call.HeaderByNumber 105, Call.SyncStatus,
          Call.Generate 106, Call.Generate 107]⟩ ∧
    loopTick scenarioFailingEnv (scenarioTx 1) (scenarioCfg 2) 10 false
        (some (scenarioFragment 105)) =
      some (LoopStep.continued none
        [Call.LatestL2Output, Call.HeaderByNumber 105, Call.SyncStatus,
          Call.Generate 106, Call.Generate 107]) :=
  ⟨by decide,
    loopTick_error_clears_lastProposal scenarioFailingEnv (scenarioTx 1) (scenarioCfg 2) 10
      (some (scenarioFragment 105))
      ⟨none, false, some (Err.failedGenerate 107 (Err.remote 1)),
        [Call.LatestL2Output, Call.HeaderByNumber 105, Call.SyncStatus,
          Call.Generate 106, Call.Generate 107]⟩
      (by decide) (by decide)⟩

/-- C3 (counterexample): the transaction manager returns a receipt whose status is
`ReceiptStatusFailed`; `sendTransaction` logs the revert and returns `nil`, and
`proposeOutput` calls `RecordL2BlocksProposed` for the proposal's block. -/
theorem proposeOutput_reverted_receipt_records :
    (scenarioTx ReceiptStatusFailed).Send { TxData := [603, 103, 3, 1], To := 9, GasLimit := 0 } =
      .ok { Status := ReceiptStatusFailed, TxHash := 77 } ∧
    proposeOutput (scenarioTx ReceiptStatusFailed) (scenarioCfg 2) (scenarioFragment 103) =
      [Call.Send { TxData := [603, 103, 3, 1], To := 9, GasLimit := 0 },
        Call.LogError "Proposer tx successfully published but reverted",
        Call.RecordL2BlocksProposed (scenarioRef 103)] ∧
    recordCalls (proposeOutput (scenarioTx ReceiptStatusFailed) (scenarioCfg 2)
      (scenarioFragment 103)) = [scenarioRef 103] := by
  refine ⟨rfl, ?_, ?_⟩ <;> decide

/-- C3 (amended): whenever `Send` returns a receipt, of whatever status (a failed, reverted
one included), `sendTransaction` returns `nil` and `proposeOutput` calls
`RecordL2BlocksProposed` once, with the proposal's block reference; the call is skipped
exactly when `sendTransaction` returns an error, that is when packing or `Send` fails. -/
theorem proposeOutput_records_unless_send_error (tx : TxEnv) (cfg : ProposerConfig)
    (p : proposal) :
    (∀ data receipt, proposeL2OutputTxData tx.Pack p = .ok data →
      tx.Send { TxData := data, To := cfg.L2OutputOracleAddr, GasLimit := 0 } = .ok receipt →
      (sendTransaction tx cfg p).1 = none ∧
        recordCalls (proposeOutput tx cfg p) = [p.blockRef]) ∧
    ((sendTransaction tx cfg p).1 ≠ none → recordCalls (proposeOutput tx cfg p) = []) ∧
    ((sendTransaction tx cfg p).1 ≠ none ↔
      (∃ e, proposeL2OutputTxData tx.Pack p = .error e) ∨
      ∃ data e, proposeL2OutputTxData tx.Pack p = .ok data ∧
        tx.Send { TxData := data, To := cfg.L2OutputOracleAddr, GasLimit := 0 } = .error e) := by
  refine ⟨?_, ?_, ?_⟩
  · intro data receipt hpack hsend
    by_cases hst : receipt.Status = ReceiptStatusFailed <;>
      simp [proposeOutput, sendTransaction, hpack, hsend, hst, recordCalls]
  · intro h
    unfold proposeOutput
    unfold sendTransaction at h ⊢
    cases hpack : proposeL2OutputTxData tx.Pack p with
    | error e => simp [recordCalls]
    | ok data =>
      cases hsend : tx.Send { TxData := data, To := cfg.L2OutputOracleAddr, GasLimit := 0 } with
      | error e => simp [hsend, recordCalls]
      | ok receipt =>
        by_cases hst : receipt.Status = ReceiptStatusFailed <;> simp [hpack, hsend, hst] at h
  · unfold sendTransaction
    cases hpack : proposeL2OutputTxData tx.Pack p with
    | error e => simp
    | ok data =>
      cases hsend : tx.Send { TxData := data, To := cfg.L2OutputOracleAddr, GasLimit := 0 } with
      | error e => simp [hsend]
      | ok receipt =>
        by_cases hst : receipt.Status = ReceiptStatusFailed <;> simp [hsend, hst]

/-- The amended C3 at a reverted receipt. -/
theorem proposeOutput_records_unless_send_error_witness :
    (sendTransaction (scenarioTx ReceiptStatusFailed) (scenarioCfg 2) (scenarioFragment 103)).1 =
      none ∧
    recordCalls (proposeOutput (scenarioTx ReceiptStatusFailed) (scenarioCfg 2)
      (scenarioFragment 103)) = [(scenarioFragment 103).blockRef] :=
  (proposeOutput_records_unless_send_error (scenarioTx ReceiptStatusFailed) (scenarioCfg 2)
    (scenarioFragment 103)).1 [603, 103, 3, 1] { Status := ReceiptStatusFailed, TxHash := 77 }
    rfl rfl

/-- C4: when the header freshly fetched for the previous proposal's block number has another
hash than the one stored in the proposal, the round is the round without previous proposal,
apart from the one `HeaderByNumber` call: same proposal, same flag, same error, same later
calls.  Below the `uint64` maximum and with enough fuel the round returns; the blocks passed
to `Generate` are `n` consecutive blocks starting at the on-chain number plus one, the
fragments passed to `Aggregate` are exactly the `Generate` results for the blocks from the
on-chain number plus one to the frontier (the previous proposal is not put in front), and the
count trigger is computed from the on-chain number. -/
theorem generateNextProposal_reorg_discards (env : Env) (cfg : ProposerConfig) (fuel : Nat)
    (lp : proposal) (proposed : TypesOutputProposal) (hd : Header)
    (hO : env.LatestL2Output = .ok proposed)
    (hH : env.HeaderByNumber lp.blockRef.Number = .ok hd)
    (hne : lp.blockRef.Hash ≠ hd.Hash) :
    generateNextProposal env cfg fuel (some lp) =
      (generateNextProposal env cfg fuel none).map
        (fun r => { r with calls :=
          Call.LatestL2Output :: Call.HeaderByNumber lp.blockRef.Number :: r.calls.tail }) ∧
    ∀ st f, env.SyncStatus = .ok st → latestBlockNumber cfg st = f →
      proposed.L2BlockNumber + 1 < uint64Mod → f + 1 < uint64Mod →
      f - proposed.L2BlockNumber < fuel →
      ∃ r, generateNextProposal env cfg fuel (some lp) = some r ∧
        (∃ n, n ≤ f - proposed.L2BlockNumber ∧
          generateCalls r.calls = List.range' (proposed.L2BlockNumber + 1) n) ∧
        (∀ root frags, (root, frags) ∈ aggregateCalls r.calls →
          List.Forall₂ (generated env)
            (List.range' (proposed.L2BlockNumber + 1) (f - proposed.L2BlockNumber)) frags) ∧
        (r.err = none →
          (r.shouldPropose = true ↔ countTrigger cfg f proposed.L2BlockNumber = true ∨
            ∃ b, proposed.L2BlockNumber < b ∧ b ≤ f ∧ ∃ q, env.Generate b = .ok (q, true))) := by
  have hP1 : ∀ p0, purgeReorged env (some lp) p0 =
      (.ok (none, p0), [Call.HeaderByNumber lp.blockRef.Number]) := by
    intro p0
    simp [purgeReorged, hH, hne]
  have hP0 : ∀ p0, purgeReorged env none p0 = (.ok (none, p0), []) := fun _ => rfl
  constructor
  · unfold generateNextProposal
    simp only [hO, hP1, hP0]
    cases env.SyncStatus with
    | error e => rfl
    | ok st =>
      simp only [Option.map_map]
      rfl
  · intro st f hS hfr hon hl hfuel
    have hmod : proposed.L2BlockNumber % uint64Mod = proposed.L2BlockNumber :=
      Nat.mod_eq_of_lt (by omega)
    have hP := hP1 (proposed.L2BlockNumber % uint64Mod)
    rw [hmod] at hP
    have hP2 : purgeReorged env (some lp) (proposed.L2BlockNumber % uint64Mod) =
        (.ok (none, proposed.L2BlockNumber), [Call.HeaderByNumber lp.blockRef.Number]) := by
      rw [hmod]; exact hP
    rcases all_ok_or_first_failure env proposed.L2BlockNumber f with hall | ⟨k, e, hk1, hk2, hk, hpre⟩
    · obtain ⟨frags, r, hfrags, hr, hcalls, hok, herr⟩ :=
        round_all_ok env cfg fuel (some lp) none proposed proposed.L2BlockNumber f _ st hO hP2 hS
          hfr hon hl hfuel hall
      refine ⟨r, hr, ⟨f - proposed.L2BlockNumber, Nat.le_refl _, ?_⟩, ?_, ?_⟩
      · rw [hcalls, generateCalls_round [Call.HeaderByNumber lp.blockRef.Number] _ _ rfl]
        simp [generateCalls]
      · intro root frags1 hmem
        rw [hcalls, aggregateCalls_round [Call.HeaderByNumber lp.blockRef.Number] _ _ rfl] at hmem
        simp only [aggregateCalls, Option.toList, List.nil_append, List.mem_singleton,
          Prod.mk.injEq] at hmem
        rw [hmem.2]
        exact hfrags
      · intro he
        cases hA : env.Aggregate proposed.OutputRoot ((none : Option proposal).toList ++ frags) with
        | error e => rw [(herr e hA).2.2] at he; cases he
        | ok agg => exact (hok agg hA).2.2
    · have hr := round_first_failure env cfg fuel (some lp) none proposed proposed.L2BlockNumber f
        _ st hO hP2 hS hfr hon hl hfuel k e hk1 hk2 hk hpre
      refine ⟨_, hr, ⟨k - proposed.L2BlockNumber, by omega, ?_⟩, ?_, ?_⟩
      · simp only []
        rw [generateCalls_round [Call.HeaderByNumber lp.blockRef.Number] _ _ rfl]
        simp [generateCalls]
      · intro root frags1 hmem
        simp only [] at hmem
        rw [aggregateCalls_round [Call.HeaderByNumber lp.blockRef.Number] _ _ rfl] at hmem
        simp [aggregateCalls] at hmem
      · intro he
        cases he

/-- C4 at the reorg scenario: previous proposal for block 105 with a stale hash. -/
theorem generateNextProposal_reorg_discards_witness :
    scenarioReorgEnv.LatestL2Output = .ok { OutputRoot := 42, L2BlockNumber := 100 } ∧
    scenarioReorgEnv.HeaderByNumber (scenarioFragment 105).blockRef.Number =
      .ok { Hash := 2105 } ∧
    (scenarioFragment 105).blockRef.Hash ≠ 2105 ∧
    generateNextProposal scenarioReorgEnv (scenarioCfg 2) 10 (some (scenarioFragment 105)) =
      (generateNextProposal scenarioReorgEnv (scenarioCfg 2) 10 none).map
        (fun r => { r with calls :=
          Call.LatestL2Output :: Call.HeaderByNumber (scenarioFragment 105).blockRef.Number ::
            r.calls.tail }) :=
  ⟨rfl, rfl, by decide,
    (generateNextProposal_reorg_discards scenarioReorgEnv (scenarioCfg 2) 10
      (scenarioFragment 105) { OutputRoot := 42, L2BlockNumber := 100 } { Hash := 2105 }
      rfl rfl (by decide)).1⟩

/-- Scenario C evaluated: the previous proposal is for block 105 with hash 1105, the
canonical hash of block 105 is now 2105, the oracle is at 100 and the frontier at 107.  The
blocks 101 to 107 are generated and the seven fragments alone are aggregated. -/
theorem scenario_reorg :
    (generateNextProposal scenarioReorgEnv (scenarioCfg 2) 10 (some (scenarioFragment 105))).map
      (fun r => (generateCalls r.calls, aggregateCalls r.calls, r.shouldPropose)) =
      some ([101, 102, 103, 104, 105, 106, 107],
        [(42, [scenarioFragment 101, scenarioFragment 102, scenarioFragment 103,
          scenarioFragment 104, scenarioFragment 105, scenarioFragment 106,
          scenarioFragment 107])], true) := by
  decide

/-- More fuel does not change what the generation loop returns. -/
theorem generateLoop_mono (env : Env) (latest k : Nat) :
    ∀ (fuel i : Nat) (proposals : List proposal) (sp : Bool) (lr : LoopResult),
      generateLoop env fuel i latest proposals sp = some lr →
      generateLoop env (fuel + k) i latest proposals sp = some lr := by
  intro fuel
  induction fuel with
  | zero => intro i _ _ lr h; simp [generateLoop] at h
  | succ n ih =>
    intro i proposals sp lr h
    have hk : n + 1 + k = (n + k) + 1 := by omega
    rw [hk]
    by_cases hi : i ≤ latest
    · simp only [generateLoop, if_pos hi] at h ⊢
      cases hG : env.Generate i with
      | error e =>
        simp only [hG] at h ⊢
        exact h
      | ok v =>
        obtain ⟨q, w⟩ := v
        simp only [hG, Option.map_eq_some'] at h ⊢
        obtain ⟨lr1, h1, h2⟩ := h
        exact ⟨lr1, ih _ _ _ lr1 h1, h2⟩
    · simp only [generateLoop, if_neg hi] at h ⊢
      exact h

/-- More fuel does not change what a round returns. -/
theorem generateNextProposal_mono (env : Env) (cfg : ProposerConfig) (fuel k : Nat)
    (lastProposal : Option proposal) (r : RoundResult)
    (h : generateNextProposal env cfg fuel lastProposal = some r) :
    generateNextProposal env cfg (fuel + k) lastProposal = some r := by
  unfold generateNextProposal at h ⊢
  cases hO : env.LatestL2Output with
  | error e => simp only [hO] at h ⊢; exact h
  | ok proposed =>
    simp only [hO] at h ⊢
    rcases hP : purgeReorged env lastProposal (proposed.L2BlockNumber % uint64Mod) with ⟨x, hc⟩
    cases x with
    | error e => simp only [hP] at h ⊢; exact h
    | ok v =>
      obtain ⟨kept, p⟩ := v
      simp only [hP] at h ⊢
      cases hS : env.SyncStatus with
      | error e => simp only [hS] at h ⊢; exact h
      | ok st =>
        simp only [hS, generateAndAggregate, Option.map_map, Option.map_eq_some'] at h ⊢
        obtain ⟨lr, h1, h2⟩ := h
        exact ⟨lr, generateLoop_mono env _ k fuel _ _ _ lr h1, h2⟩

/-- With the frontier at the `uint64` maximum the loop condition `i <= latestBlockNumber`
never fails: the loop is left only through a failed `Generate`. -/
theorem generateLoop_no_exit_at_max (env : Env) (latest : Nat) (hl : uint64Mod ≤ latest + 1) :
    ∀ (fuel i : Nat) (proposals : List proposal) (sp : Bool) (lr : LoopResult),
      i < uint64Mod → generateLoop env fuel i latest proposals sp = some lr → lr.err ≠ none := by
  intro fuel
  induction fuel with
  | zero => intro i _ _ lr _ h; simp [generateLoop] at h
  | succ n ih =>
    intro i proposals sp lr hi h
    have hle : i ≤ latest := by omega
    simp only [generateLoop, if_pos hle] at h
    cases hG : env.Generate i with
    | error e =>
      simp only [hG, Option.some.injEq] at h
      subst h
      simp
    | ok v =>
      obtain ⟨q, w⟩ := v
      simp only [hG, Option.map_eq_some'] at h
      obtain ⟨lr1, h1, h2⟩ := h
      subst h2
      exact ih _ _ _ lr1 (Nat.mod_lt _ (by unfold uint64Mod; omega)) h1

/-- A round that returns without error had its frontier below the `uint64` maximum. -/
theorem frontier_lt_max_of_success (env : Env) (cfg : ProposerConfig) (fuel : Nat)
    (lastProposal kept : Option proposal) (proposed : TypesOutputProposal) (p f : Nat)
    (hc : List Call) (st : SyncStatus)
    (hO : env.LatestL2Output = .ok proposed)
    (hP : purgeReorged env lastProposal (proposed.L2BlockNumber % uint64Mod) = (.ok (kept, p), hc))
    (hS : env.SyncStatus = .ok st) (hfr : latestBlockNumber cfg st = f)
    (r : RoundResult) (hr : generateNextProposal env cfg fuel lastProposal = some r)
    (he : r.err = none) : f + 1 < uint64Mod := by
  by_contra hcon
  have hround := generateNextProposal_eq env cfg fuel lastProposal kept proposed p hc st hO hP hS
  rw [hr, hfr] at hround
  simp only [generateAndAggregate, Option.map_map] at hround
  obtain ⟨lr, h1, h2⟩ := Option.map_eq_some'.mp hround.symm
  have hlr := generateLoop_no_exit_at_max env f (by omega) fuel _ _ _ lr
    (Nat.mod_lt _ (by unfold uint64Mod; omega)) h1
  subst h2
  simp only [Function.comp, aggregateStep] at he
  cases hle : lr.err with
  | none => exact hlr hle
  | some e => simp [hle] at he

/-- C5: in a round whose oracle read, reorg check and sync status succeed, with the frontier
`f` at or past the effective `proposedBlockNumber` `p`: whenever the round returns without
error, the submit flag is true exactly when `MinProposalInterval > 0` and
`f - p > MinProposalInterval`, or `Generate` reported pending withdrawals for some block of
`p+1, ..., f`; with `MinProposalInterval = 0` it is true exactly when some block reports
withdrawals.  Below the `uint64` maximum and with enough fuel the round does return. -/
theorem generateNextProposal_submit_flag (env : Env) (cfg : ProposerConfig) (fuel : Nat)
    (lastProposal kept : Option proposal) (proposed : TypesOutputProposal) (p f : Nat)
    (hc : List Call) (st : SyncStatus)
    (hO : env.LatestL2Output = .ok proposed)
    (hP : purgeReorged env lastProposal (proposed.L2BlockNumber % uint64Mod) = (.ok (kept, p), hc))
    (hS : env.SyncStatus = .ok st) (hfr : latestBlockNumber cfg st = f)
    (hpf : p ≤ f) :
    (∀ r, generateNextProposal env cfg fuel lastProposal = some r → r.err = none →
      (r.shouldPropose = true ↔
        (0 < cfg.MinProposalInterval ∧ f - p > cfg.MinProposalInterval) ∨
          ∃ b, p < b ∧ b ≤ f ∧ ∃ q, env.Generate b = .ok (q, true)) ∧
      (cfg.MinProposalInterval = 0 →
        (r.shouldPropose = true ↔ ∃ b, p < b ∧ b ≤ f ∧ ∃ q, env.Generate b = .ok (q, true)))) ∧
    (f + 1 < uint64Mod → f - p < fuel →
      ∃ r, generateNextProposal env cfg fuel lastProposal = some r) := by
  constructor
  · intro r hr he
    have hl : f + 1 < uint64Mod :=
      frontier_lt_max_of_success env cfg fuel lastProposal kept proposed p f hc st hO hP hS hfr
        r hr he
    have hp : p + 1 < uint64Mod := by omega
    have hr1 := generateNextProposal_mono env cfg fuel (f - p + 1) lastProposal r hr
    rcases all_ok_or_first_failure env p f with hall | ⟨k, e, hk1, hk2, hk, hpre⟩
    · obtain ⟨frags, r1, _, hr2, _, hok, herr⟩ :=
        round_all_ok env cfg (fuel + (f - p + 1)) lastProposal kept proposed p f hc st hO hP hS
          hfr hp hl (by omega) hall
      rw [hr1] at hr2
      cases hr2
      cases hA : env.Aggregate proposed.OutputRoot (kept.toList ++ frags) with
      | error e => rw [(herr e hA).2.2] at he; cases he
      | ok agg =>
        have hflag := (hok agg hA).2.2
        rw [countTrigger_of_le cfg f p hpf (by omega)] at hflag
        refine ⟨hflag, ?_⟩
        intro h0
        rw [hflag]
        constructor
        · rintro (⟨h1, _⟩ | h2)
          · omega
          · exact h2
        · exact Or.inr
    · have hr2 := round_first_failure env cfg (fuel + (f - p + 1)) lastProposal kept proposed p f
        hc st hO hP hS hfr hp hl (by omega) k e hk1 hk2 hk hpre
      rw [hr1] at hr2
      cases hr2
      cases he
  · intro hl hfuel
    have hp : p + 1 < uint64Mod := by omega
    rcases all_ok_or_first_failure env p f with hall | ⟨k, e, hk1, hk2, hk, hpre⟩
    · obtain ⟨_, r, _, hr, _⟩ :=
        round_all_ok env cfg fuel lastProposal kept proposed p f hc st hO hP hS hfr hp hl hfuel
          hall
      exact ⟨r, hr⟩
    · exact ⟨_, round_first_failure env cfg fuel lastProposal kept proposed p f hc st hO hP hS
        hfr hp hl hfuel k e hk1 hk2 hk hpre⟩

/-- Scenario B as an instance of C5: oracle at 100, frontier at 103, `MinProposalInterval` 2,
no previous proposal, no withdrawals; the round returns without error and the flag is true,
by the count trigger `3 > 2`. -/
theorem generateNextProposal_submit_flag_witness :
    (scenarioEnv 100 103).LatestL2Output = .ok { OutputRoot := 42, L2BlockNumber := 100 } ∧
    (100 : Nat) ≤ 103 ∧
    ∃ r, generateNextProposal (scenarioEnv 100 103) (scenarioCfg 2) 4 none = some r ∧
      r.err = none ∧ r.shouldPropose = true := by
  have h := generateNextProposal_submit_flag (scenarioEnv 100 103) (scenarioCfg 2) 4 none none
    { OutputRoot := 42, L2BlockNumber := 100 } 100 103 []
    { SafeL2 := scenarioRef 103, FinalizedL2 := scenarioRef 103 }
    rfl rfl rfl rfl (by decide)
  obtain ⟨r, hr⟩ := h.2 (by decide) (by decide)
  have he : r.err = none := by
    have h1 : (generateNextProposal (scenarioEnv 100 103) (scenarioCfg 2) 4 none).map
        (fun x => x.err) = some none := by decide
    rw [hr] at h1
    exact Option.some.inj h1
  exact ⟨rfl, by decide, r, hr, he, ((h.1 r hr he).1).mpr (Or.inl ⟨by decide, by decide⟩)⟩

/-- Scenarios A and B evaluated: with the oracle at 100 and no previous proposal, frontier
100 gives no `Generate` call, one `Aggregate` call and flag false; frontier 103 with
`MinProposalInterval` 2 and no withdrawals gives the blocks 101, 102, 103 and flag true. -/
theorem scenario_A_and_B :
    (generateNextProposal (scenarioEnv 100 100) (scenarioCfg 2) 4 none).map
      (fun r => (generateCalls r.calls, aggregateCalls r.calls, r.shouldPropose, r.err)) =
      some ([], [(42, [])], false, none) ∧
    (generateNextProposal (scenarioEnv 100 103) (scenarioCfg 2) 4 none).map
      (fun r => (generateCalls r.calls, r.shouldPropose, r.err)) =
      some ([101, 102, 103], true, none) := by
  constructor <;> decide

/-- C6: in a round whose oracle read, reorg check and sync status succeed, below the
`uint64` maximum and with enough fuel, the round returns.  When every block of
`p+1, ..., f` is generated successfully, the blocks passed to `Generate` are exactly
`p+1, p+2, ..., f` in this order.  When block `k` is the first whose generation fails, the
blocks passed to `Generate` are exactly `p+1, ..., k`, the round returns `nil`, `false` and
the error of block `k`, and `Aggregate` is not called. -/
theorem generateNextProposal_generate_sequence (env : Env) (cfg : ProposerConfig) (fuel : Nat)
    (lastProposal kept : Option proposal) (proposed : TypesOutputProposal) (p f : Nat)
    (hc : List Call) (st : SyncStatus)
    (hO : env.LatestL2Output = .ok proposed)
    (hP : purgeReorged env lastProposal (proposed.L2BlockNumber % uint64Mod) = (.ok (kept, p), hc))
    (hS : env.SyncStatus = .ok st) (hfr : latestBlockNumber cfg st = f)
    (hp : p + 1 < uint64Mod) (hl : f + 1 < uint64Mod) (hfuel : f - p < fuel) :
    ∃ r, generateNextProposal env cfg fuel lastProposal = some r ∧
      ((∀ b, p < b → b ≤ f → ∃ q w, env.Generate b = .ok (q, w)) →
        generateCalls r.calls = List.range' (p + 1) (f - p)) ∧
      (∀ k e, p < k → k ≤ f → env.Generate k = .error e →
        (∀ b, p < b → b < k → ∃ q w, env.Generate b = .ok (q, w)) →
        generateCalls r.calls = List.range' (p + 1) (k - p) ∧
          r.proposal = none ∧ r.shouldPropose = false ∧
          r.err = some (Err.failedGenerate k e) ∧ aggregateCalls r.calls = []) := by
  have hpc := purgeReorged_calls env lastProposal (proposed.L2BlockNumber % uint64Mod)
  rw [hP] at hpc
  rcases all_ok_or_first_failure env p f with hall | ⟨k, e, hk1, hk2, hk, hpre⟩
  · obtain ⟨frags, r, _, hr, hcalls, _, _⟩ :=
      round_all_ok env cfg fuel lastProposal kept proposed p f hc st hO hP hS hfr hp hl hfuel hall
    refine ⟨r, hr, ?_, ?_⟩
    · intro _
      rw [hcalls, generateCalls_round hc _ _ hpc.1]
      simp [generateCalls]
    · intro k e hk1 hk2 hk _
      obtain ⟨q, w, hq⟩ := hall k hk1 hk2
      rw [hk] at hq
      cases hq
  · have hr := round_first_failure env cfg fuel lastProposal kept proposed p f hc st hO hP hS hfr
      hp hl hfuel k e hk1 hk2 hk hpre
    refine ⟨_, hr, ?_, ?_⟩
    · intro hall
      obtain ⟨q, w, hq⟩ := hall k hk1 hk2
      rw [hk] at hq
      cases hq
    · intro k1 e1 hk3 hk4 hk5 hpre1
      have hkk : k1 = k := by
        rcases Nat.lt_trichotomy k1 k with h | h | h
        · obtain ⟨q, w, hq⟩ := hpre k1 hk3 h
          rw [hk5] at hq
          cases hq
        · exact h
        · obtain ⟨q, w, hq⟩ := hpre1 k hk1 h
          rw [hk] at hq
          cases hq
      subst hkk
      rw [hk] at hk5
      cases hk5
      refine ⟨?_, rfl, rfl, rfl, ?_⟩
      · simp only []
        rw [generateCalls_round hc _ _ hpc.1]
        simp [generateCalls]
      · simp only []
        rw [aggregateCalls_round hc _ _ hpc.2]
        simp [aggregateCalls]

/-- C6 at the failing round of `scenarioFailingEnv`: blocks 106 and 107 are tried, 107 fails. -/
theorem generateNextProposal_generate_sequence_witness :
    scenarioFailingEnv.LatestL2Output = .ok { OutputRoot := 42, L2BlockNumber := 100 } ∧
    scenarioFailingEnv.Generate 107 = .error (Err.remote 1) ∧
    ∃ r, generateNextProposal scenarioFailingEnv (scenarioCfg 2) 10
        (some (scenarioFragment 105)) = some r ∧
      generateCalls r.calls = List.range' (105 + 1) (107 - 105) ∧
      r.proposal = none ∧ r.shouldPropose = false ∧
      r.err = some (Err.failedGenerate 107 (Err.remote 1)) ∧ aggregateCalls r.calls = [] := by
  obtain ⟨r, hr, _, h2⟩ :=
    generateNextProposal_generate_sequence scenarioFailingEnv (scenarioCfg 2) 10
      (some (scenarioFragment 105)) (some (scenarioFragment 105))
      { OutputRoot := 42, L2BlockNumber := 100 } 105 107 [Call.HeaderByNumber 105]
      { SafeL2 := scenarioRef 107, FinalizedL2 := scenarioRef 107 }
      rfl rfl rfl rfl (by decide) (by decide) (by decide)
  refine ⟨rfl, rfl, r, hr, h2 107 (Err.remote 1) (by decide) (by decide) rfl ?_⟩
  intro b hb1 hb2
  have hb : b = 106 := by omega
  subst hb
  exact ⟨scenarioFragment 106, false, rfl⟩

/-- C7: in a round in which the oracle read, the reorg check, the sync status and every
`Generate` succeed, below the `uint64` maximum and with enough fuel, the round returns and
`Aggregate` is called exactly once, with the output root read from the oracle and with the
list made of the previous proposal, when one was given and its hash is still canonical,
followed by the `Generate` results for `p+1, ..., f` in this order; the round returns the
proposal `Aggregate` returns, or `nil, false` and the wrapped error when `Aggregate` fails. -/
theorem generateNextProposal_aggregates_once (env : Env) (cfg : ProposerConfig) (fuel : Nat)
    (lastProposal kept : Option proposal) (proposed : TypesOutputProposal) (p f : Nat)
    (hc : List Call) (st : SyncStatus)
    (hO : env.LatestL2Output = .ok proposed)
    (hP : purgeReorged env lastProposal (proposed.L2BlockNumber % uint64Mod) = (.ok (kept, p), hc))
    (hS : env.SyncStatus = .ok st) (hfr : latestBlockNumber cfg st = f)
    (hp : p + 1 < uint64Mod) (hl : f + 1 < uint64Mod) (hfuel : f - p < fuel)
    (hG : ∀ b, p < b → b ≤ f → ∃ q w, env.Generate b = .ok (q, w)) :
    ∃ frags r, List.Forall₂ (generated env) (List.range' (p + 1) (f - p)) frags ∧
      generateNextProposal env cfg fuel lastProposal = some r ∧
      aggregateCalls r.calls = [(proposed.OutputRoot, kept.toList ++ frags)] ∧
      (∀ lp, kept = some lp ↔ lastProposal = some lp ∧
        ∃ hd, env.HeaderByNumber lp.blockRef.Number = .ok hd ∧ lp.blockRef.Hash = hd.Hash) ∧
      (∀ agg, env.Aggregate proposed.OutputRoot (kept.toList ++ frags) = .ok agg →
        r.proposal = some agg ∧ r.err = none) ∧
      (∀ e, env.Aggregate proposed.OutputRoot (kept.toList ++ frags) = .error e →
        r.proposal = none ∧ r.shouldPropose = false ∧ r.err = some (Err.failedAggregate e)) := by
  have hpc := purgeReorged_calls env lastProposal (proposed.L2BlockNumber % uint64Mod)
  rw [hP] at hpc
  obtain ⟨frags, r, hfrags, hr, hcalls, hok, herr⟩ :=
    round_all_ok env cfg fuel lastProposal kept proposed p f hc st hO hP hS hfr hp hl hfuel hG
  refine ⟨frags, r, hfrags, hr, ?_, ?_, ?_, herr⟩
  · rw [hcalls, aggregateCalls_round hc _ _ hpc.2]
    rfl
  · intro lp
    rcases purgeReorged_ok env lastProposal kept _ p hc hP with
      ⟨h1, h2, _, _⟩ | ⟨lp1, hd, h1, h2, h3, h4, _, _⟩ | ⟨lp1, hd, h1, h2, h3, h4, _, _⟩
    · subst h1 h2
      simp
    · subst h1 h4
      constructor
      · intro h; cases h
      · rintro ⟨h5, hd1, h6, h7⟩
        cases h5
        rw [h2] at h6
        cases h6
        exact absurd h7 h3
    · subst h1 h4
      constructor
      · intro h
        cases h
        exact ⟨rfl, hd, h2, h3⟩
      · rintro ⟨h5, _⟩
        exact h5
  · intro agg hA
    exact ⟨(hok agg hA).1, (hok agg hA).2.1⟩

/-- C7 at a healthy round that carries the proposal for block 105 forward. -/
theorem generateNextProposal_aggregates_once_witness :
    (scenarioEnv 100 107).LatestL2Output = .ok { OutputRoot := 42, L2BlockNumber := 100 } ∧
    ∃ frags r, List.Forall₂ (generated (scenarioEnv 100 107)) (List.range' (105 + 1) (107 - 105))
        frags ∧
      generateNextProposal (scenarioEnv 100 107) (scenarioCfg 2) 10
        (some (scenarioFragment 105)) = some r ∧
      aggregateCalls r.calls = [(42, (some (scenarioFragment 105)).toList ++ frags)] := by
  obtain ⟨frags, r, h1, h2, h3, _⟩ :=
    generateNextProposal_aggregates_once (scenarioEnv 100 107) (scenarioCfg 2) 10
      (some (scenarioFragment 105)) (some (scenarioFragment 105))
      { OutputRoot := 42, L2BlockNumber := 100 } 105 107 [Call.HeaderByNumber 105]
      { SafeL2 := scenarioRef 107, FinalizedL2 := scenarioRef 107 }
      rfl rfl rfl rfl (by decide) (by decide) (by decide)
      (fun b _ _ => ⟨scenarioFragment b, false, rfl⟩)
  exact ⟨rfl, frags, r, h1, h2, h3⟩

/-- C8: `StartL2OutputSubmitting` on a running submitter returns the error "proposer is
already running", and `StopL2OutputSubmitting` on a submitter that is not running returns
`ErrProposerNotRunning`; in both cases the submitter is unchanged (same `running`, `done`
not closed by the call, context not cancelled by the call) and the call has no effect: no
loop is spawned, nothing is cancelled, closed or waited for. -/
theorem lifecycle_misuse_rejected (l : L2OutputSubmitter) :
    (l.running = true →
      StartL2OutputSubmitting l = (Outcome.returns (some Err.alreadyRunning), l, [])) ∧
    (l.running = false →
      StopL2OutputSubmitting l = (Outcome.returns (some Err.ErrProposerNotRunning), l, [])) := by
  constructor
  · intro h
    simp [StartL2OutputSubmitting, h]
  · intro h
    simp [StopL2OutputSubmitting, h]

/-- C8 at a running submitter and at a fresh one. -/
theorem lifecycle_misuse_rejected_witness :
    StartL2OutputSubmitting { running := true, doneClosed := false, ctxCancelled := false } =
      (Outcome.returns (some Err.alreadyRunning),
        { running := true, doneClosed := false, ctxCancelled := false }, []) ∧
    StopL2OutputSubmitting newL2OOSubmitter =
      (Outcome.returns (some Err.ErrProposerNotRunning), newL2OOSubmitter, []) :=
  ⟨(lifecycle_misuse_rejected { running := true, doneClosed := false, ctxCancelled := false }).1
      rfl,
    (lifecycle_misuse_rejected newL2OOSubmitter).2 rfl⟩

/-- C9 (the code at the failing input): a submitter that was started, stopped and started
again is running, but its channel `done` is already closed.  `StopL2OutputSubmitting`
clears `running`, cancels the context and panics in `close(l.done)`: it does not return
success, and neither does `StopL2OutputSubmittingIfRunning`. -/
theorem StopL2OutputSubmitting_after_restart_panics :
    restartedSubmitter = { running := true, doneClosed := true, ctxCancelled := true } ∧
    StopL2OutputSubmitting restartedSubmitter =
      (Outcome.panics, { running := false, doneClosed := true, ctxCancelled := true },
        [Effect.cancel]) ∧
    StopL2OutputSubmittingIfRunning restartedSubmitter =
      (Outcome.panics, { running := false, doneClosed := true, ctxCancelled := true },
        [Effect.cancel]) := by
  decide

/-- From a running submitter whose channel `done` is still open (one that was started once),
`StopL2OutputSubmitting` twice returns `nil` and then `ErrProposerNotRunning`, and
`StopL2OutputSubmittingIfRunning` twice returns `nil` both times. -/
theorem stop_twice_first_run (l : L2OutputSubmitter) (hr : l.running = true)
    (hd : l.doneClosed = false) :
    (StopL2OutputSubmitting l).1 = Outcome.returns none ∧
    (StopL2OutputSubmitting (StopL2OutputSubmitting l).2.1).1 =
      Outcome.returns (some Err.ErrProposerNotRunning) ∧
    (StopL2OutputSubmittingIfRunning l).1 = Outcome.returns none ∧
    (StopL2OutputSubmittingIfRunning (StopL2OutputSubmittingIfRunning l).2.1).1 =
      Outcome.returns none := by
  simp [StopL2OutputSubmittingIfRunning, StopL2OutputSubmitting, hr, hd, errorsIs]

/-- From any state `StopL2OutputSubmittingIfRunning` never returns an error (the only error
`StopL2OutputSubmitting` returns is `ErrProposerNotRunning`), and it leaves the submitter
not running. -/
theorem StopL2OutputSubmittingIfRunning_no_error (l : L2OutputSubmitter) :
    (∀ e, (StopL2OutputSubmittingIfRunning l).1 ≠ Outcome.returns (some e)) ∧
    (∀ e, (StopL2OutputSubmitting l).1 = Outcome.returns (some e) →
      e = Err.ErrProposerNotRunning) ∧
    (StopL2OutputSubmittingIfRunning l).2.1.running = false := by
  obtain ⟨r, d, c⟩ := l
  cases r <;> cases d <;>
    simp [StopL2OutputSubmittingIfRunning, StopL2OutputSubmitting, errorsIs]

/-- C10: `proposeL2OutputTxData` packs a call to the method "proposeL2Output" with, in this
order, the proposal's output root, its block number, its L1 origin number and its signature
bytes.  When packing succeeds `sendTransaction` calls `Send` exactly once, with this payload,
the configured oracle address and gas limit 0; when packing fails nothing is sent. -/
theorem proposeL2OutputTxData_payload (tx : TxEnv) (cfg : ProposerConfig) (p : proposal) :
    proposeL2OutputTxData tx.Pack p =
      tx.Pack "proposeL2Output"
        [AbiValue.bytes32 p.output.OutputRoot, AbiValue.bigInt p.blockRef.Number,
          AbiValue.bigInt p.blockRef.L1Origin.Number, AbiValue.bytes p.output.Signature] ∧
    (∀ data, proposeL2OutputTxData tx.Pack p = .ok data →
      sendCalls (sendTransaction tx cfg p).2 =
        [{ TxData := data, To := cfg.L2OutputOracleAddr, GasLimit := 0 }]) ∧
    (∀ e, proposeL2OutputTxData tx.Pack p = .error e →
      sendTransaction tx cfg p = (some e, [])) := by
  refine ⟨rfl, ?_, ?_⟩
  · intro data hpack
    unfold sendTransaction
    simp only [hpack]
    cases hsend : tx.Send { TxData := data, To := cfg.L2OutputOracleAddr, GasLimit := 0 } with
    | error e => simp [sendCalls]
    | ok receipt =>
      by_cases hst : receipt.Status = ReceiptStatusFailed <;> simp [hst, sendCalls]
  · intro e hpack
    simp [sendTransaction, hpack]

/-- C10 at the fragment for block 103. -/
theorem proposeL2OutputTxData_payload_witness :
    proposeL2OutputTxData (scenarioTx 1).Pack (scenarioFragment 103) = .ok [603, 103, 3, 1] ∧
    sendCalls (sendTransaction (scenarioTx 1) (scenarioCfg 2) (scenarioFragment 103)).2 =
      [{ TxData := [603, 103, 3, 1], To := (scenarioCfg 2).L2OutputOracleAddr, GasLimit := 0 }] :=
  ⟨rfl,
    (proposeL2OutputTxData_payload (scenarioTx 1) (scenarioCfg 2) (scenarioFragment 103)).2.1
      [603, 103, 3, 1] rfl⟩

/-! ### Caching client -/

/-- A value just added to a cache of positive size is found under its key. -/
theorem LRUCache.lookup_Add {V : Type} (c : LRUCache V) (key : Bytes32) (v : V)
    (hs : 0 < c.size) : (c.Add key v).entries.lookup key = some v := by
  obtain ⟨n, hn⟩ : ∃ n, c.size = n + 1 := ⟨c.size - 1, by omega⟩
  simp [LRUCache.Add, hn, List.take_succ_cons, List.lookup]

/-- The method `Get` returns what is stored under the key. -/
theorem LRUCache.Get_fst {V : Type} (c : LRUCache V) (key : Bytes32) :
    (c.Get key).1 = c.entries.lookup key := by
  unfold LRUCache.Get
  cases c.entries.lookup key <;> rfl

/-- A miss leaves the cache as it is. -/
theorem LRUCache.Get_miss {V : Type} (c : LRUCache V) (key : Bytes32)
    (h : c.entries.lookup key = none) : c.Get key = (none, c) := by
  simp [LRUCache.Get, h]

/-- C11: with the caches as explicit state.  `HeaderByNumber` and `BlockByNumber` call the
remote source exactly once whatever the caches hold, and on success return its answer and
store it under the answer's own hash (the block and its header, for `BlockByNumber`).
`HeaderByHash`, `BlockByHash` and `BlockReceipts` return the value cached under the requested
hash without a remote call when there is one; otherwise they call the remote source exactly
once and on success return its answer and store it.  With a cache of positive size, a
`HeaderByHash` for the hash of the header that `HeaderByNumber` just returned gives that
header back without a remote call. -/
theorem ethClient_caching (remote : EthRemote) (e : ethClient) :
    (∀ n, (ethClient.HeaderByNumber remote e n).2.2 = [RemoteCall.HeaderByNumber n]) ∧
    (∀ n h, remote.HeaderByNumber n = .ok h →
      (ethClient.HeaderByNumber remote e n).1 = .ok h ∧
      (ethClient.HeaderByNumber remote e n).2.1.headersCache = e.headersCache.Add h.Hash h) ∧
    (∀ n, (ethClient.BlockByNumber remote e n).2.2 = [RemoteCall.BlockByNumber n]) ∧
    (∀ n b, remote.BlockByNumber n = .ok b →
      (ethClient.BlockByNumber remote e n).1 = .ok b ∧
      (ethClient.BlockByNumber remote e n).2.1.blocksCache = e.blocksCache.Add b.Hash b ∧
      (ethClient.BlockByNumber remote e n).2.1.headersCache =
        e.headersCache.Add b.Hash b.header) ∧
    (∀ hash h, e.headersCache.entries.lookup hash = some h →
      (ethClient.HeaderByHash remote e hash).1 = .ok h ∧
      (ethClient.HeaderByHash remote e hash).2.2 = []) ∧
    (∀ hash b, e.blocksCache.entries.lookup hash = some b →
      (ethClient.BlockByHash remote e hash).1 = .ok b ∧
      (ethClient.BlockByHash remote e hash).2.2 = []) ∧
    (∀ hash r, e.receiptsCache.entries.lookup hash = some r →
      (ethClient.BlockReceipts remote e hash).1 = .ok r ∧
      (ethClient.BlockReceipts remote e hash).2.2 = []) ∧
    (∀ hash, e.headersCache.entries.lookup hash = none →
      (ethClient.HeaderByHash remote e hash).2.2 = [RemoteCall.HeaderByHash hash] ∧
      ∀ h, remote.HeaderByHash hash = .ok h →
        (ethClient.HeaderByHash remote e hash).1 = .ok h ∧
        (ethClient.HeaderByHash remote e hash).2.1.headersCache =
          e.headersCache.Add hash h) ∧
    (∀ hash, e.blocksCache.entries.lookup hash = none →
      (ethClient.BlockByHash remote e hash).2.2 = [RemoteCall.BlockByHash hash] ∧
      ∀ b, remote.BlockByHash hash = .ok b →
        (ethClient.BlockByHash remote e hash).1 = .ok b ∧
        (ethClient.BlockByHash remote e hash).2.1.blocksCache = e.blocksCache.Add b.Hash b ∧
        (ethClient.BlockByHash remote e hash).2.1.headersCache =
          e.headersCache.Add b.Hash b.header) ∧
    (∀ hash, e.receiptsCache.entries.lookup hash = none →
      (ethClient.BlockReceipts remote e hash).2.2 = [RemoteCall.BlockReceipts hash] ∧
      ∀ r, remote.BlockReceipts hash = .ok r →
        (ethClient.BlockReceipts remote e hash).1 = .ok r ∧
        (ethClient.BlockReceipts remote e hash).2.1.receiptsCache =
          e.receiptsCache.Add hash r) ∧
    (0 < e.headersCache.size → ∀ n h, remote.HeaderByNumber n = .ok h →
      (ethClient.HeaderByHash remote (ethClient.HeaderByNumber remote e n).2.1 h.Hash).1 =
        .ok h ∧
      (ethClient.HeaderByHash remote (ethClient.HeaderByNumber remote e n).2.1 h.Hash).2.2 =
        []) := by
  have hit : ∀ {V : Type} (c : LRUCache V) (key : Bytes32) (v : V),
      c.entries.lookup key = some v → ∃ c1, c.Get key = (some v, c1) := by
    intro V c key v h
    exact ⟨{ c with entries := (key, v) :: c.entries.filter fun kv => kv.1 != key },
      by simp [LRUCache.Get, h]⟩
  refine ⟨?_, ?_, ?_, ?_, ?_, ?_, ?_, ?_, ?_, ?_, ?_⟩
  · intro n
    unfold ethClient.HeaderByNumber
    cases remote.HeaderByNumber n <;> rfl
  · intro n h hr
    simp [ethClient.HeaderByNumber, hr]
  · intro n
    unfold ethClient.BlockByNumber
    cases remote.BlockByNumber n <;> rfl
  · intro n b hr
    simp [ethClient.BlockByNumber, hr]
  · intro hash h hl
    obtain ⟨c1, hc1⟩ := hit e.headersCache hash h hl
    simp [ethClient.HeaderByHash, hc1]
  · intro hash b hl
    obtain ⟨c1, hc1⟩ := hit e.blocksCache hash b hl
    simp [ethClient.BlockByHash, hc1]
  · intro hash r hl
    obtain ⟨c1, hc1⟩ := hit e.receiptsCache hash r hl
    simp [ethClient.BlockReceipts, hc1]
  · intro hash hl
    have hm := LRUCache.Get_miss e.headersCache hash hl
    constructor
    · simp only [ethClient.HeaderByHash, hm]
      cases remote.HeaderByHash hash <;> rfl
    · intro h hr
      simp [ethClient.HeaderByHash, hm, hr]
  · intro hash hl
    have hm := LRUCache.Get_miss e.blocksCache hash hl
    constructor
    · simp only [ethClient.BlockByHash, hm]
      cases remote.BlockByHash hash <;> rfl
    · intro b hr
      simp [ethClient.BlockByHash, hm, hr]
  · intro hash hl
    have hm := LRUCache.Get_miss e.receiptsCache hash hl
    constructor
    · simp only [ethClient.BlockReceipts, hm]
      cases remote.BlockReceipts hash <;> rfl
    · intro r hr
      simp [ethClient.BlockReceipts, hm, hr]
  · intro hs n h hr
    have hl : (e.headersCache.Add h.Hash h).entries.lookup h.Hash = some h :=
      LRUCache.lookup_Add e.headersCache h.Hash h hs
    obtain ⟨c1, hc1⟩ := hit (e.headersCache.Add h.Hash h) h.Hash h hl
    simp [ethClient.HeaderByNumber, hr, ethClient.HeaderByHash, hc1]

/-- C11 at a fresh client: the header of block 105 is fetched by number, then by its hash. -/
theorem ethClient_caching_witness :
    (0 < newClient.headersCache.size) ∧
    scenarioRemote.HeaderByNumber 105 = .ok { Hash := 1105 } ∧
    (ethClient.HeaderByHash scenarioRemote
      (ethClient.HeaderByNumber scenarioRemote newClient 105).2.1 1105).1 =
        .ok { Hash := 1105 } ∧
    (ethClient.HeaderByHash scenarioRemote
      (ethClient.HeaderByNumber scenarioRemote newClient 105).2.1 1105).2.2 = [] :=
  ⟨by decide, rfl,
    (ethClient_caching scenarioRemote newClient).2.2.2.2.2.2.2.2.2.2 (by decide) 105
      { Hash := 1105 } rfl⟩

/-! ### The block-count gate with a carried-forward proposal -/

/-- A round that returns without error and in which the frontier is at most
`MinProposalInterval` blocks past the effective `proposedBlockNumber` `p` (the number of the
carried-forward proposal, when one is kept), with no block reporting withdrawals, returns
the submit flag `false`, however far the frontier is past the on-chain number. -/
theorem round_small_step_no_submit (env : Env) (cfg : ProposerConfig) (fuel : Nat)
    (lastProposal kept : Option proposal) (proposed : TypesOutputProposal) (p f : Nat)
    (hc : List Call) (st : SyncStatus)
    (hO : env.LatestL2Output = .ok proposed)
    (hP : purgeReorged env lastProposal (proposed.L2BlockNumber % uint64Mod) = (.ok (kept, p), hc))
    (hS : env.SyncStatus = .ok st) (hfr : latestBlockNumber cfg st = f)
    (hpf : p ≤ f) (hstep : f - p ≤ cfg.MinProposalInterval)
    (hnw : ∀ b q, p < b → b ≤ f → env.Generate b ≠ .ok (q, true))
    (r : RoundResult) (hr : generateNextProposal env cfg fuel lastProposal = some r)
    (he : r.err = none) : r.shouldPropose = false := by
  have hl : f + 1 < uint64Mod :=
    frontier_lt_max_of_success env cfg fuel lastProposal kept proposed p f hc st hO hP hS hfr
      r hr he
  have hp : p + 1 < uint64Mod := by omega
  have hr1 := generateNextProposal_mono env cfg fuel (f - p + 1) lastProposal r hr
  rcases all_ok_or_first_failure env p f with hall | ⟨k, e, hk1, hk2, hk, hpre⟩
  · obtain ⟨frags, r1, _, hr2, _, hok, herr⟩ :=
      round_all_ok env cfg (fuel + (f - p + 1)) lastProposal kept proposed p f hc st hO hP hS
        hfr hp hl (by omega) hall
    rw [hr1] at hr2
    cases hr2
    cases hA : env.Aggregate proposed.OutputRoot (kept.toList ++ frags) with
    | error e => rw [(herr e hA).2.2] at he; cases he
    | ok agg =>
      have hflag := (hok agg hA).2.2
      rw [countTrigger_of_le cfg f p hpf (by omega)] at hflag
      cases hs : r.shouldPropose with
      | false => rfl
      | true =>
        rcases hflag.mp hs with ⟨_, h2⟩ | ⟨b, hb1, hb2, q, hq⟩
        · omega
        · exact absurd hq (hnw b q hb1 hb2)
  · have hr2 := round_first_failure env cfg (fuel + (f - p + 1)) lastProposal kept proposed p f
      hc st hO hP hS hfr hp hl (by omega) k e hk1 hk2 hk hpre
    rw [hr1] at hr2
    cases hr2
    cases he

/-- C12 (the code at the failing input): the oracle is at block 100, the loop carries the
proposal for block 105 whose hash is still canonical, the frontier is 107 and
`MinProposalInterval` is 2.  The frontier is 7 blocks past the on-chain number, but the
round measures the gate from block 105: it generates 106 and 107 and, since `107 - 105 = 2`
is not more than 2, returns without error with the submit flag `false`. -/
theorem generateNextProposal_gate_from_carried_proposal :
    (scenarioCfg 2).MinProposalInterval > 0 ∧
    107 - 100 > (scenarioCfg 2).MinProposalInterval ∧
    (generateNextProposal (scenarioEnv 100 107) (scenarioCfg 2) 10
        (some (scenarioFragment 105))).map
      (fun r => (generateCalls r.calls, r.shouldPropose, r.err)) =
      some ([106, 107], false, none) := by
  refine ⟨by decide, by decide, by decide⟩

/-- A loop that finds two new blocks at each tick, with `MinProposalInterval` 2 and the
oracle staying at block 100.  The tick at frontier 102 leaves the aggregate of the fragments
101 and 102 in `lastProposal`; the ticks at frontier 104 and 106 each aggregate the carried
proposal with two new fragments.  After the third tick the loop carries a proposal ending at
block 106, and none of the ticks has sent a transaction. -/
theorem loop_two_blocks_per_tick_never_sends :
    tickOutcome (loopTick (scenarioEnv 100 102) (scenarioTx 1) (scenarioCfg 2) 10 false none) =
      (some (scenarioAggregate 42 [scenarioFragment 101, scenarioFragment 102]), false) ∧
    tickOutcome (loopTick (scenarioEnv 100 104) (scenarioTx 1) (scenarioCfg 2) 10 false
      (some (scenarioAggregate 42 [scenarioFragment 101, scenarioFragment 102]))) =
      (some (scenarioAggregate 42
        [scenarioAggregate 42 [scenarioFragment 101, scenarioFragment 102],
          scenarioFragment 103, scenarioFragment 104]), false) ∧
    tickOutcome (loopTick (scenarioEnv 100 106) (scenarioTx 1) (scenarioCfg 2) 10 false
      (some (scenarioAggregate 42
        [scenarioAggregate 42 [scenarioFragment 101, scenarioFragment 102],
          scenarioFragment 103, scenarioFragment 104]))) =
      (some (scenarioAggregate 42
        [scenarioAggregate 42
          [scenarioAggregate 42 [scenarioFragment 101, scenarioFragment 102],
            scenarioFragment 103, scenarioFragment 104],
          scenarioFragment 105, scenarioFragment 106]), false) ∧
    (scenarioAggregate 42
      [scenarioAggregate 42
        [scenarioAggregate 42 [scenarioFragment 101, scenarioFragment 102],
          scenarioFragment 103, scenarioFragment 104],
        scenarioFragment 105, scenarioFragment 106]).blockRef.Number = 106 := by
  refine ⟨by decide, by decide, by decide, by decide⟩

/-! ### Sequences of lifecycle calls -/

/-- C13 (the code at the failing input): on a fresh submitter the calls start, stop, start
all return `nil`, and leave a submitter that is running with the channel `done` closed and
the context cancelled; its loop returns at the first tick without running a round; a
further stop panics in `close(l.done)`. -/
theorem lifecycle_restart_breaks_invariant :
    runCalls [LifecycleCall.Start, LifecycleCall.Stop, LifecycleCall.Start] newL2OOSubmitter =
      ([Outcome.returns none, Outcome.returns none, Outcome.returns none],
        { running := true, doneClosed := true, ctxCancelled := true }) ∧
    runCalls [LifecycleCall.Start, LifecycleCall.Stop, LifecycleCall.Start, LifecycleCall.Stop]
        newL2OOSubmitter =
      ([Outcome.returns none, Outcome.returns none, Outcome.returns none, Outcome.panics],
        { running := false, doneClosed := true, ctxCancelled := true }) ∧
    ∀ (env : Env) (tx : TxEnv) (cfg : ProposerConfig) (fuel : Nat) (lp : Option proposal),
      loopTick env tx cfg fuel
        (runCalls [LifecycleCall.Start, LifecycleCall.Stop, LifecycleCall.Start]
          newL2OOSubmitter).2.doneClosed lp = some LoopStep.returned := by
  refine ⟨by decide, by decide, ?_⟩
  intro env tx cfg fuel lp
  rfl

/-- As long as the channel `done` is open and the context is not cancelled (a submitter that
was never stopped), no lifecycle call panics, and afterwards a running submitter still has
`done` open and the context not cancelled. -/
theorem lifecycle_first_run_safe (c : LifecycleCall) (l : L2OutputSubmitter)
    (hd : l.doneClosed = false) (hx : l.ctxCancelled = false) :
    (c.apply l).1 ≠ Outcome.panics ∧
    ((c.apply l).2.1.running = true →
      (c.apply l).2.1.doneClosed = false ∧ (c.apply l).2.1.ctxCancelled = false) := by
  obtain ⟨r, d, x⟩ := l
  simp only at hd hx
  subst hd hx
  cases c <;> cases r <;>
    simp [LifecycleCall.apply, StartL2OutputSubmitting, StopL2OutputSubmitting,
      StopL2OutputSubmittingIfRunning, errorsIs]

/-- What every sequence of lifecycle calls on a fresh submitter does preserve: the channel
`done` is closed exactly when the context is cancelled. -/
theorem runCalls_done_iff_cancelled :
    ∀ (calls : List LifecycleCall) (l : L2OutputSubmitter),
      l.doneClosed = l.ctxCancelled →
      (runCalls calls l).2.doneClosed = (runCalls calls l).2.ctxCancelled := by
  intro calls
  induction calls with
  | nil => intro l h; exact h
  | cons c cs ih =>
    intro l h
    obtain ⟨r, d, x⟩ := l
    simp only at h
    subst h
    cases c <;> cases r <;> cases d <;>
      simp [runCalls, LifecycleCall.apply, StartL2OutputSubmitting, StopL2OutputSubmitting,
        StopL2OutputSubmittingIfRunning, errorsIs] <;>
      exact ih _ rfl

end Proposer
